import Mathlib

/-!
Verification of the data-access helper module (`scanpy/get.py`).

The module is shallowly embedded: the annotated-data container becomes a
structure of total functions and name lists, pandas data frames become
ordered lists of labeled columns, and every fallible Python operation
returns `Except Err`.  Numeric cell values are modeled as `Rat` (no claim
in scope concerns floating-point rounding); metadata cell values are
modeled as `String`.  Arrays are modeled as total functions on `Nat`
indices; the embedded functions only ever apply them within the bounds
the source code uses.
-/

namespace ScanpyGet

/-- A cell of an output data frame: numeric (matrix-derived) or textual
(metadata-derived). -/
inductive Cell where
  | num (q : Rat)
  | str (s : String)

/-- One output column, indexed by row position. -/
abbrev Col := Nat → Cell

/-- A pandas data frame, modeled as an ordered list of labeled columns
over an implicit shared row index. -/
structure PDF where
  cols : List (String × Col)

/-- A 2-D auxiliary annotation block (`obsm` / `varm` value): a dense
numpy array, a scipy sparse matrix, or a pandas data frame with integer
column labels. -/
inductive Block where
  | arr (f : Nat → Nat → Rat)
  | sp (f : Nat → Nat → Rat)
  | table (tcols : List (Nat × (Nat → Rat)))

/-- The secondary (`.raw`) store: its own feature names, feature
metadata, and matrix. -/
structure RawStore where
  varNames : List String
  varData : String → Nat → String
  X : Nat → Nat → Rat

/-- The annotated-data container (`AnnData`), restricted to the fields
this module reads or writes.  `obsData c i` is the value of obs-metadata
column `c` at observation `i`; `varData c j` likewise for features. -/
structure AnnData where
  obsNames : List String
  varNames : List String
  obsCols : List String
  obsData : String → Nat → String
  varCols : List String
  varData : String → Nat → String
  X : Nat → Nat → Rat
  layers : String → Nat → Nat → Rat
  raw : RawStore
  obsm : String → Block
  varm : String → Block
  obsp : String → Nat → Nat → Rat
  isbacked : Bool

/-- The errors the module can raise.  Each constructor carries exactly
the data that the corresponding Python message interpolates (so an error
"names" a key or column precisely when the constructor carries it). -/
inductive Err where
  | assertFail (msg : String)
  | typeErr (typeName : String)
  | dupObsCols (dups : List String)
  | dupVarNames
  | ambiguous (key : String)
  | ambiguousAlias (key : String) (col : String)
  | notFound (keys : List String) (useRaw : Bool) (geneSymbols : Option String)
  | varNotFound (keys : List String)
  | indexerError
  | blockKeyError (idx : Nat)
  deriving DecidableEq

/-- The `use_raw` argument as passed by a (dynamically typed) caller:
either an actual Python bool, or a non-bool value of which only the
truthiness and the type name are relevant to the source code. -/
inductive RawArg where
  | bool (b : Bool)
  | nonBool (truthy : Bool) (typeName : String)
  deriving DecidableEq

/-- `use_raw is not False`: every non-bool object is not the `False`
singleton, so it counts as a made choice. -/
def isRawSet : RawArg → Bool
  | .bool b => b
  | .nonBool _ _ => true

/-- Python truthiness of the `use_raw` argument (used by the bare
`elif use_raw:` tests). -/
def isTruthy : RawArg → Bool
  | .bool b => b
  | .nonBool t _ => t

/-- `choices_made = sum((is_layer, is_raw, is_obsm, is_obsp))`. -/
def selCount (use_raw : RawArg) (layer obsm obsp : Option String) : Nat :=
  (if layer.isSome then 1 else 0) + (if isRawSet use_raw then 1 else 0) +
    (if obsm.isSome then 1 else 0) + (if obsp.isSome then 1 else 0)

/-- A value returned by the representation selector: a 2-D numeric array
or an auxiliary block (the raw `obsm` entry is returned as-is). -/
inductive RepVal where
  | matr (m : Nat → Nat → Rat)
  | block (b : Block)

/-- Embedding of `_get_obs_rep`: choose the array aligned with obs
annotation.  Mirrors the source control flow: the `isinstance` type
check on `use_raw`, the `choices_made <= 1` assertion, then the
`if`/`elif` chain. -/
def _get_obs_rep (adata : AnnData) (use_raw : RawArg)
    (layer obsm obsp : Option String) : Except Err RepVal :=
  match use_raw with
  | .nonBool _ tn => .error (.typeErr tn)
  | .bool b =>
    let choices := selCount (.bool b) layer obsm obsp
    if choices ≤ 1 then
      if choices = 0 then .ok (.matr adata.X)
      else
        match layer with
        | some l => .ok (.matr (adata.layers l))
        | none =>
          if b then .ok (.matr adata.raw.X)
          else
            match obsm with
            | some k => .ok (.block (adata.obsm k))
            | none =>
              match obsp with
              | some k => .ok (.matr (adata.obsp k))
              | none => .error (.assertFail "unexpected")
    else .error (.assertFail "choices_made <= 1")

/-- Embedding of `_set_obs_rep`: set the chosen representation in place.
Note the source performs no type check on `use_raw` here; the branch on
`use_raw` itself is a bare truthiness test. -/
def _set_obs_rep (adata : AnnData) (val : Nat → Nat → Rat) (use_raw : RawArg)
    (layer obsm obsp : Option String) : Except Err AnnData :=
  let choices := selCount use_raw layer obsm obsp
  if choices ≤ 1 then
    if choices = 0 then .ok { adata with X := val }
    else
      match layer with
      | some l => .ok { adata with layers := Function.update adata.layers l val }
      | none =>
        if isTruthy use_raw then .ok { adata with raw := { adata.raw with X := val } }
        else
          match obsm with
          | some k => .ok { adata with obsm := Function.update adata.obsm k (.arr val) }
          | none =>
            match obsp with
            | some k => .ok { adata with obsp := Function.update adata.obsp k val }
            | none => .error (.assertFail "unexpected")
  else .error (.assertFail "choices_made <= 1")

/-- A small concrete container used by witnesses. -/
def stW : AnnData where
  obsNames := ["c1", "c2"]
  varNames := ["G1", "G2"]
  obsCols := ["cluster"]
  obsData := fun _ _ => "x"
  varCols := ["symbol"]
  varData := fun _ _ => "s"
  X := fun i j => (i : Rat) + j
  layers := fun _ _ _ => 5
  raw := { varNames := ["G1", "G2"], varData := fun _ _ => "r", X := fun _ _ => 7 }
  obsm := fun _ => .arr fun _ _ => 1
  varm := fun _ => .arr fun _ _ => 2
  obsp := fun _ _ _ => 3
  isbacked := false

/-- An all-zero matrix used as a written value in setter examples. -/
def zeroMat : Nat → Nat → Rat := fun _ _ => 0

/-- C6: for every call of the representation selector with a boolean
`use_raw`: if zero of the four selectors are set it returns the primary
matrix; if exactly one is set it returns the corresponding array
(layer, raw matrix, obsm block, obsp block); if more than one is set it
fails fast with the defensive assertion and returns no array. -/
theorem get_obs_rep_selector_cases (st : AnnData) (b : Bool)
    (layer obsm obsp : Option String) :
    (selCount (.bool b) layer obsm obsp = 0 →
      _get_obs_rep st (.bool b) layer obsm obsp = .ok (.matr st.X)) ∧
    (∀ l, layer = some l → selCount (.bool b) layer obsm obsp = 1 →
      _get_obs_rep st (.bool b) layer obsm obsp = .ok (.matr (st.layers l))) ∧
    (b = true → selCount (.bool b) layer obsm obsp = 1 →
      _get_obs_rep st (.bool b) layer obsm obsp = .ok (.matr st.raw.X)) ∧
    (∀ k, obsm = some k → selCount (.bool b) layer obsm obsp = 1 →
      _get_obs_rep st (.bool b) layer obsm obsp = .ok (.block (st.obsm k))) ∧
    (∀ k, obsp = some k → selCount (.bool b) layer obsm obsp = 1 →
      _get_obs_rep st (.bool b) layer obsm obsp = .ok (.matr (st.obsp k))) ∧
    (2 ≤ selCount (.bool b) layer obsm obsp →
      _get_obs_rep st (.bool b) layer obsm obsp =
        .error (.assertFail "choices_made <= 1")) := by
  cases b <;> cases layer <;> cases obsm <;> cases obsp <;>
    simp [_get_obs_rep, selCount, isRawSet]

/-- Witness for C6: each of the six cases realized at a concrete call. -/
theorem get_obs_rep_selector_cases_witness :
    _get_obs_rep stW (.bool false) none none none = .ok (.matr stW.X) ∧
    _get_obs_rep stW (.bool false) (some "L") none none =
      .ok (.matr (stW.layers "L")) ∧
    _get_obs_rep stW (.bool true) none none none = .ok (.matr stW.raw.X) ∧
    _get_obs_rep stW (.bool false) none (some "M") none =
      .ok (.block (stW.obsm "M")) ∧
    _get_obs_rep stW (.bool false) none none (some "P") =
      .ok (.matr (stW.obsp "P")) ∧
    _get_obs_rep stW (.bool true) (some "L") none none =
      .error (.assertFail "choices_made <= 1") :=
  ⟨(get_obs_rep_selector_cases stW false none none none).1 rfl,
   (get_obs_rep_selector_cases stW false (some "L") none none).2.1 "L" rfl rfl,
   (get_obs_rep_selector_cases stW true none none none).2.2.1 rfl rfl,
   (get_obs_rep_selector_cases stW false none (some "M") none).2.2.2.1 "M" rfl rfl,
   (get_obs_rep_selector_cases stW false none none (some "P")).2.2.2.2.1 "P" rfl rfl,
   (get_obs_rep_selector_cases stW true (some "L") none none).2.2.2.2.2 (by decide)⟩

/-- C7 counterexample: the write counterpart does NOT raise a type error
on a non-boolean `use_raw`.  With a truthy non-bool and no other
selector, `_set_obs_rep` silently selects the raw write path and
performs the mutation, contradicting the claim that both helpers raise
a type error before any selection or mutation. -/
theorem set_obs_rep_nonbool_counterexample :
    _set_obs_rep stW zeroMat (.nonBool true "str") none none none =
      .ok { stW with raw := { stW.raw with X := zeroMat } } := by
  rfl

/-- C7 amended: only the read helper type-checks `use_raw` (raising a
type error naming the offending type before any selection); the write
counterpart performs no such check: with no other selector set, a
truthy non-boolean silently selects the raw write path and a falsy
non-boolean falls through to the defensive unreachable assertion. -/
theorem set_obs_rep_no_typecheck (st : AnnData) (t : Bool) (tn : String)
    (layer obsm obsp : Option String) (val : Nat → Nat → Rat) :
    _get_obs_rep st (.nonBool t tn) layer obsm obsp = .error (.typeErr tn) ∧
    _set_obs_rep st val (.nonBool t tn) none none none =
      (if t then .ok { st with raw := { st.raw with X := val } }
       else .error (.assertFail "unexpected")) := by
  refine ⟨rfl, ?_⟩
  cases t <;> rfl

/-- Lexicographic code-point comparison of character lists (the standard
string order, in an explicitly computable form). -/
def charListLe : List Char → List Char → Bool
  | [], _ => true
  | _ :: _, [] => false
  | a :: as, b :: bs =>
    if a.toNat < b.toNat then true
    else if b.toNat < a.toNat then false
    else charListLe as bs

/-- Code-point string comparison. -/
def strLeB (a b : String) : Bool := charListLe a.data b.data

/-- Embedding of `np.unique` on string keys: sorted list of the distinct
values. -/
def npUnique (l : List String) : List String :=
  List.insertionSort (fun a b => strLeB a b = true) l.dedup

/-- The comparison used by the argsort embedding: order positions by
value, ties broken by position. -/
def argLe (l : List Nat) (i j : Nat) : Prop :=
  l.getD i 0 < l.getD j 0 ∨ (l.getD i 0 = l.getD j 0 ∧ i ≤ j)

instance (l : List Nat) : DecidableRel (argLe l) := fun i j => by
  unfold argLe
  infer_instance

/-- Embedding of `np.argsort`: the list of positions `0 .. n-1` ordered
by the value at each position (ties broken by position; any correct
argsort agrees on the inputs the module produces, whose values are
distinct). -/
def argsort (l : List Nat) : List Nat :=
  List.insertionSort (argLe l) (List.range l.length)

/-- Numpy fancy indexing on columns, `M[:, idx]`. -/
def colSelect (M : Nat → Nat → Rat) (idx : List Nat) : Nat → Nat → Rat :=
  fun i j => M i (idx.getD j 0)

/-- Numpy fancy indexing on rows, `M[idx, :]`. -/
def rowSelect (M : Nat → Nat → Rat) (idx : List Nat) : Nat → Nat → Rat :=
  fun i j => M (idx.getD i 0) j

/-- The backed-store column fetch of `obs_df`:
`X[:, var_idx[var_order]][:, np.argsort(var_order)]` with
`var_order = np.argsort(var_idx)`. -/
def backedColSelect (M : Nat → Nat → Rat) (idx : List Nat) : Nat → Nat → Rat :=
  colSelect (colSelect M ((argsort idx).map fun m => idx.getD m 0))
    (argsort (argsort idx))

/-- The backed-store row fetch of `var_df`:
`X[obs_idx[obs_order], :][np.argsort(obs_order)]`. -/
def backedRowSelect (M : Nat → Nat → Rat) (idx : List Nat) : Nat → Nat → Rat :=
  rowSelect (rowSelect M ((argsort idx).map fun m => idx.getD m 0))
    (argsort (argsort idx))

theorem getD_range {n j : Nat} (h : j < n) : (List.range n).getD j 0 = j := by
  rw [List.getD_eq_getElem?_getD, List.getElem?_eq_getElem (by simpa using h)]
  simp

theorem getD_map_of_lt {α β : Type} (l : List α) (f : α → β) (j : Nat)
    (d : β) (d2 : α) (h : j < l.length) :
    (l.map f).getD j d = f (l.getD j d2) := by
  rw [List.getD_eq_getElem?_getD, List.getD_eq_getElem?_getD,
    List.getElem?_eq_getElem (by simpa using h), List.getElem?_eq_getElem h]
  simp

theorem map_getD_range (l : List Nat) :
    (List.range l.length).map (fun i => l.getD i 0) = l := by
  apply List.ext_getElem (by simp)
  intro i h1 h2
  simp [List.getD_eq_getElem?_getD, List.getElem?_eq_getElem h2]

theorem argsort_perm (l : List Nat) : List.Perm (argsort l) (List.range l.length) :=
  List.perm_insertionSort _ _

theorem argLe_total (l : List Nat) : IsTotal Nat (argLe l) := by
  constructor
  intro a b
  rcases lt_trichotomy (l.getD a 0) (l.getD b 0) with h | h | h
  · exact Or.inl (Or.inl h)
  · rcases Nat.le_total a b with h' | h'
    · exact Or.inl (Or.inr ⟨h, h'⟩)
    · exact Or.inr (Or.inr ⟨h.symm, h'⟩)
  · exact Or.inr (Or.inl h)

theorem argLe_trans (l : List Nat) : IsTrans Nat (argLe l) := by
  constructor
  intro a b c hab hbc
  rcases hab with h1 | ⟨h1, h1'⟩ <;> rcases hbc with h2 | ⟨h2, h2'⟩
  · exact Or.inl (lt_trans h1 h2)
  · exact Or.inl (h2 ▸ h1)
  · exact Or.inl (h1 ▸ h2)
  · exact Or.inr ⟨h1.trans h2, le_trans h1' h2'⟩

theorem argsort_length (l : List Nat) : (argsort l).length = l.length := by
  simpa using (argsort_perm l).length_eq

theorem mem_argsort_lt {l : List Nat} {i : Nat} (h : i ∈ argsort l) :
    i < l.length := by
  simpa using (argsort_perm l).subset h

theorem argsort_sorted (l : List Nat) :
    (argsort l).Pairwise fun i j => l.getD i 0 ≤ l.getD j 0 := by
  have h := @List.sorted_insertionSort Nat (argLe l) _ (argLe_total l)
    (argLe_trans l) (List.range l.length)
  exact h.imp fun hab => by
    rcases hab with h1 | ⟨h1, _⟩
    · exact le_of_lt h1
    · exact le_of_eq h1

theorem argsort_comp_inv (p : List Nat) (hp : List.Perm p (List.range p.length))
    {j : Nat} (hj : j < p.length) :
    p.getD ((argsort p).getD j 0) 0 = j := by
  have hlen := argsort_length p
  have hmap : (argsort p).map (fun i => p.getD i 0) = List.range p.length := by
    apply List.eq_of_perm_of_sorted (r := (· ≤ ·))
    · refine List.Perm.trans (List.Perm.map _ (argsort_perm p)) ?_
      rw [map_getD_range p]
      exact hp
    · exact (List.pairwise_map).2 (argsort_sorted p)
    · exact List.sorted_le_range p.length
  have hjq : j < (argsort p).length := by omega
  have := congrArg (fun l => l.getD j 0) hmap
  simp only at this
  rw [getD_map_of_lt _ _ _ 0 0 hjq] at this
  rw [this, getD_range hj]

theorem backedColSelect_eq (M : Nat → Nat → Rat) (idx : List Nat) (i j : Nat)
    (hj : j < idx.length) : backedColSelect M idx i j = colSelect M idx i j := by
  unfold backedColSelect colSelect
  congr 1
  have hp : List.Perm (argsort idx) (List.range (argsort idx).length) := by
    rw [argsort_length]; exact argsort_perm idx
  have hjp : j < (argsort idx).length := by rw [argsort_length]; exact hj
  have hm : (argsort (argsort idx)).getD j 0 ∈ argsort (argsort idx) := by
    rw [List.getD_eq_getElem?_getD,
      List.getElem?_eq_getElem (by rw [argsort_length]; exact hjp)]
    exact List.getElem_mem _
  have hmlt : (argsort (argsort idx)).getD j 0 < (argsort idx).length :=
    mem_argsort_lt hm
  rw [getD_map_of_lt _ _ _ 0 0 hmlt, argsort_comp_inv (argsort idx) hp hjp]

theorem backedRowSelect_eq (M : Nat → Nat → Rat) (idx : List Nat) (i j : Nat)
    (hi : i < idx.length) : backedRowSelect M idx i j = rowSelect M idx i j := by
  unfold backedRowSelect rowSelect
  congr 1
  have hp : List.Perm (argsort idx) (List.range (argsort idx).length) := by
    rw [argsort_length]; exact argsort_perm idx
  have hip : i < (argsort idx).length := by rw [argsort_length]; exact hi
  have hm : (argsort (argsort idx)).getD i 0 ∈ argsort (argsort idx) := by
    rw [List.getD_eq_getElem?_getD,
      List.getElem?_eq_getElem (by rw [argsort_length]; exact hip)]
    exact List.getElem_mem _
  have hmlt : (argsort (argsort idx)).getD i 0 < (argsort idx).length :=
    mem_argsort_lt hm
  rw [getD_map_of_lt _ _ _ 0 0 hmlt, argsort_comp_inv (argsort idx) hp hip]

/-- Entries of a column-name list marked by `pandas.Index.duplicated()`:
every occurrence after the first. -/
def dupEntries : List String → List String → List String
  | _, [] => []
  | seen, x :: xs =>
    if x ∈ seen then x :: dupEntries seen xs
    else dupEntries (x :: seen) xs

/-- Feature names of the matrix actually used for expression values. -/
def usedVarNames (st : AnnData) (use_raw : Bool) : List String :=
  if use_raw then st.raw.varNames else st.varNames

/-- Feature metadata of the matrix actually used. -/
def usedVarData (st : AnnData) (use_raw : Bool) : String → Nat → String :=
  if use_raw then st.raw.varData else st.varData

/-- The `gene_names` series of `obs_df`: `pd.Series(var_names, index=...)`,
modeled as the list of (index entry, value) pairs in feature order.  The
index is the symbol-alias column when `gene_symbols` is given, else the
feature names themselves. -/
def geneNames (st : AnnData) (gene_symbols : Option String) (use_raw : Bool) :
    List (String × String) :=
  match gene_symbols with
  | some g => (usedVarNames st use_raw).enum.map fun p =>
      (usedVarData st use_raw g p.1, p.2)
  | none => (usedVarNames st use_raw).map fun n => (n, n)

/-- Outcome of the key-resolution loop of `obs_df`: the four lists
`obs_names`, `var_names`, `var_symbol`, `not_found`, in iteration order. -/
structure Resolved where
  obsSel : List String
  varSel : List String
  varSymbol : List String
  notFound : List String
  deriving DecidableEq

/-- The `for key in np.unique(keys)` resolution loop of `obs_df`.  A key
in the obs columns that also hits the gene-name index raises the
ambiguity error; a key matching several gene-name index entries raises
the duplicate-alias error (after the `assert gene_symbols is not None`,
which itself fails when no alias column is in use). -/
def resolveLoop (obsCols : List String) (gn : List (String × String))
    (gene_symbols : Option String) : List String → Except Err Resolved
  | [] => .ok ⟨[], [], [], []⟩
  | k :: rest =>
    if k ∈ obsCols then
      if gn.any (fun p => p.1 == k) then .error (.ambiguous k)
      else
        match resolveLoop obsCols gn gene_symbols rest with
        | .error e => .error e
        | .ok r => .ok { r with obsSel := k :: r.obsSel }
    else
      match gn.filter (fun p => p.1 == k) with
      | [] =>
        match resolveLoop obsCols gn gene_symbols rest with
        | .error e => .error e
        | .ok r => .ok { r with notFound := k :: r.notFound }
      | [p] =>
        match resolveLoop obsCols gn gene_symbols rest with
        | .error e => .error e
        | .ok r => .ok { r with varSel := p.2 :: r.varSel,
                                varSymbol := k :: r.varSymbol }
      | _ :: _ :: _ =>
        match gene_symbols with
        | none => .error (.assertFail "gene_symbols is not None")
        | some col => .error (.ambiguousAlias k col)

/-- Look up a data-frame column by label (first match). -/
def findCol (df : PDF) (lb : String) : Option Col :=
  (df.cols.find? fun p => p.1 == lb).map Prod.snd

/-- Placeholder column; never observable on the paths the module takes,
since selection only ever requests labels the assembly produced. -/
def emptyCol : Col := fun _ => .str ""

/-- Pandas `df[keys]`: one output column per requested label, in request
order, duplicates included. -/
def selectCols (df : PDF) (keys : List String) : PDF :=
  ⟨keys.map fun k => (k, (findCol df k).getD emptyCol)⟩

/-- Pandas `df[lb] = c`: replace an existing column in place, else append. -/
def setCol (df : PDF) (lb : String) (c : Col) : PDF :=
  if df.cols.any (fun p => p.1 == lb) then
    ⟨df.cols.map fun p => if p.1 == lb then (lb, c) else p⟩
  else ⟨df.cols ++ [(lb, c)]⟩

/-- The label `f"{k}-{idx}"` of an appended auxiliary-block column. -/
def obsmLabel (p : String × Nat) : String := p.1 ++ "-" ++ toString p.2

/-- Extract column `idx` of an auxiliary block: flat column for an array
or sparse block, `.loc[:, idx]` label lookup for a data-frame block. -/
def fetchBlock (b : Block) (idx : Nat) : Except Err Col :=
  match b with
  | .arr f => .ok fun i => .num (f i idx)
  | .sp f => .ok fun i => .num (f i idx)
  | .table tcols =>
    match tcols.find? (fun p => p.1 == idx) with
    | some p => .ok fun i => .num (p.2 i)
    | none => .error (.blockKeyError idx)

/-- The auxiliary-column loop at the end of `obs_df` / `var_df`. -/
def applyBlocks (blocks : String → Block) :
    List (String × Nat) → PDF → Except Err PDF
  | [], df => .ok df
  | bk :: rest, df =>
    match fetchBlock (blocks bk.1) bk.2 with
    | .error e => .error e
    | .ok c => applyBlocks blocks rest (setCol df (obsmLabel bk) c)

/-- The auxiliary loop applied to no pairs is the identity. -/
theorem applyBlocks_nil (blocks : String → Block) (df : PDF) :
    applyBlocks blocks [] df = .ok df := rfl

/-- Mapping over the enumeration of a singleton. -/
theorem enum_map_singleton {α β : Type} (a : α) (f : Nat × α → β) :
    [a].enum.map f = [f (0, a)] := rfl

/-- The obs-metadata columns selected by `adata.obs[obs_names]`. -/
def obsBlockCols (st : AnnData) (names : List String) : List (String × Col) :=
  names.map fun n => (n, fun i => .str (st.obsData n i))

/-- The feature-value columns,
`pd.DataFrame(matrix, columns=var_symbol, index=adata.obs.index)`. -/
def varBlockCols (symbols : List String) (matrix : Nat → Nat → Rat) :
    List (String × Col) :=
  symbols.enum.map fun p => (p.2, fun i => .num (matrix i p.1))

/-- The feature-value block of `obs_df`: representation selection,
`get_indexer` of the resolved names (which needs a unique feature
index), and the order-restoring backed fetch. -/
def buildVarBlock (st : AnnData) (layer : Option String) (use_raw : Bool)
    (res : Resolved) : Except Err (List (String × Col)) :=
  if res.varSel = [] then .ok []
  else
    match _get_obs_rep st (.bool use_raw) layer none none with
    | .error e => .error e
    | .ok (.block _) => .error (.assertFail "unexpected rep")
    | .ok (.matr X) =>
      let uvn := usedVarNames st use_raw
      if uvn.Nodup then
        let varIdx := res.varSel.map fun n => uvn.indexOf n
        let matrix := cond st.isbacked (backedColSelect X varIdx)
          (colSelect X varIdx)
        .ok (varBlockCols res.varSymbol matrix)
      else .error .indexerError

/-- Embedding of `obs_df`.  Mirrors the source order: the
`use_raw`/`layer` assertion, `gene_names` construction, the two
uniqueness prechecks (obs columns; primary `var_names` regardless of
`use_raw`), key resolution over `np.unique(keys)`, the aggregate
not-found error, assembly of feature and metadata columns, reordering
by `df[keys]`, and the obsm column loop. -/
def obs_df (st : AnnData) (keys : List String) (obsm_keys : List (String × Nat))
    (layer : Option String) (gene_symbols : Option String) (use_raw : Bool) :
    Except Err PDF :=
  if use_raw && layer.isSome then
    .error (.assertFail "Cannot specify use_raw=True and a layer at the same time.")
  else
    let gn := geneNames st gene_symbols use_raw
    if st.obsCols.Nodup then
      if st.varNames.Nodup then
        match resolveLoop st.obsCols gn gene_symbols (npUnique keys) with
        | .error e => .error e
        | .ok res =>
          if res.notFound = [] then
            match buildVarBlock st layer use_raw res with
            | .error e => .error e
            | .ok vcols =>
              let base : PDF := ⟨vcols ++ obsBlockCols st res.obsSel⟩
              applyBlocks st.obsm obsm_keys (selectCols base keys)
          else .error (.notFound res.notFound use_raw gene_symbols)
      else .error .dupVarNames
    else .error (.dupObsCols (dupEntries [] st.obsCols))

/-- Outcome of the key-resolution loop of `var_df`. -/
structure VResolved where
  obsSel : List String
  varSel : List String
  notFound : List String
  deriving DecidableEq

/-- The resolution loop of `var_df`: an obs-name match takes priority;
no uniqueness or ambiguity checks are performed. -/
def resolveVarLoop (st : AnnData) : List String → VResolved
  | [] => ⟨[], [], []⟩
  | k :: rest =>
    let r := resolveVarLoop st rest
    if k ∈ st.obsNames then { r with obsSel := k :: r.obsSel }
    else if k ∈ st.varCols then { r with varSel := k :: r.varSel }
    else { r with notFound := k :: r.notFound }

/-- The var-metadata columns selected by `adata.var[var_names]`. -/
def varColsBlock (st : AnnData) (names : List String) : List (String × Col) :=
  names.map fun n => (n, fun v => .str (st.varData n v))

/-- The transposed observation-value block of `var_df`: row selection of
the backing matrix by resolved obs positions (with the order-restoring
backed fetch), then transposition into feature-indexed columns. -/
def buildObsBlockT (st : AnnData) (layer : Option String) (res : VResolved) :
    Except Err (List (String × Col)) :=
  if res.obsSel = [] then .ok []
  else
    match _get_obs_rep st (.bool false) layer none none with
    | .error e => .error e
    | .ok (.block _) => .error (.assertFail "unexpected rep")
    | .ok (.matr X) =>
      if st.obsNames.Nodup then
        let obsIdx := res.obsSel.map fun n => st.obsNames.indexOf n
        let matrix := cond st.isbacked (backedRowSelect X obsIdx)
          (rowSelect X obsIdx)
        .ok (res.obsSel.enum.map fun p => (p.2, fun v => .num (matrix p.1 v)))
      else .error .indexerError

/-- Embedding of `var_df`: resolution over `np.unique(keys)` against
obs names then var-metadata columns, the aggregate not-found error,
assembly, reordering by `df[keys]`, and the varm column loop. -/
def var_df (st : AnnData) (keys : List String) (varm_keys : List (String × Nat))
    (layer : Option String) : Except Err PDF :=
  let res := resolveVarLoop st (npUnique keys)
  if res.notFound = [] then
    match buildObsBlockT st layer res with
    | .error e => .error e
    | .ok ocols =>
      let base : PDF := ⟨ocols ++ varColsBlock st res.varSel⟩
      applyBlocks st.varm varm_keys (selectCols base keys)
  else .error (.varNotFound res.notFound)

/-- `key in adata.obs.columns`. -/
def inObsCols (obsCols : List String) (k : String) : Bool := decide (k ∈ obsCols)

/-- `key in gene_names.index`. -/
def inGeneIdx (gn : List (String × String)) (k : String) : Bool :=
  gn.any fun p => p.1 == k

/-- `gene_names[key]` returns a Series: the key matches two or more
index entries. -/
def multiGene (gn : List (String × String)) (k : String) : Bool :=
  decide (2 ≤ (gn.filter fun p => p.1 == k).length)

/-- A key resolved as a feature key: not an obs column, hits the
gene-name index. -/
def isVarKey (obsCols : List String) (gn : List (String × String))
    (k : String) : Bool :=
  !inObsCols obsCols k && inGeneIdx gn k

/-- A key resolving in neither namespace. -/
def isNotFoundKey (obsCols : List String) (gn : List (String × String))
    (k : String) : Bool :=
  !inObsCols obsCols k && !inGeneIdx gn k

/-- A key on which the resolution loop raises: in both namespaces, or a
multiple alias match outside the obs columns. -/
def triggers (obsCols : List String) (gn : List (String × String))
    (k : String) : Bool :=
  (inObsCols obsCols k && inGeneIdx gn k) || (!inObsCols obsCols k && multiGene gn k)

/-- The unique value `gene_names[key]` when the key matches exactly one
index entry. -/
def geneVal (gn : List (String × String)) (k : String) : String :=
  ((gn.filter fun p => p.1 == k).map Prod.snd).headD ""

theorem inGeneIdx_eq_false_iff (gn : List (String × String)) (k : String) :
    inGeneIdx gn k = false ↔ (gn.filter fun p => p.1 == k) = [] := by
  simp [inGeneIdx, List.filter_eq_nil_iff, List.any_eq_true]

/-- One unfolding step of the resolution loop. -/
theorem resolveLoop_cons (obsCols : List String) (gn : List (String × String))
    (gene_symbols : Option String) (k : String) (rest : List String) :
    resolveLoop obsCols gn gene_symbols (k :: rest) =
      (if k ∈ obsCols then
        if gn.any (fun p => p.1 == k) then .error (.ambiguous k)
        else
          match resolveLoop obsCols gn gene_symbols rest with
          | .error e => .error e
          | .ok r => .ok { r with obsSel := k :: r.obsSel }
      else
        match gn.filter (fun p => p.1 == k) with
        | [] =>
          match resolveLoop obsCols gn gene_symbols rest with
          | .error e => .error e
          | .ok r => .ok { r with notFound := k :: r.notFound }
        | [p] =>
          match resolveLoop obsCols gn gene_symbols rest with
          | .error e => .error e
          | .ok r => .ok { r with varSel := p.2 :: r.varSel,
                                  varSymbol := k :: r.varSymbol }
        | _ :: _ :: _ =>
          match gene_symbols with
          | none => .error (.assertFail "gene_symbols is not None")
          | some col => .error (.ambiguousAlias k col)) := rfl

/-- No raising key in the list: the loop succeeds, partitioning keys in
iteration order. -/
theorem resolveLoop_ok (obsCols : List String) (gn : List (String × String))
    (gene_symbols : Option String) (l : List String)
    (h : ∀ k ∈ l, triggers obsCols gn k = false) :
    resolveLoop obsCols gn gene_symbols l =
      .ok ⟨l.filter (inObsCols obsCols),
           (l.filter (isVarKey obsCols gn)).map (geneVal gn),
           l.filter (isVarKey obsCols gn),
           l.filter (isNotFoundKey obsCols gn)⟩ := by
  induction l with
  | nil => rfl
  | cons k rest ih =>
    have hk := h k (by simp)
    have hrest : ∀ k' ∈ rest, triggers obsCols gn k' = false := fun k' hk' =>
      h k' (by simp [hk'])
    by_cases hko : k ∈ obsCols
    · have hio : inObsCols obsCols k = true := by simp [inObsCols, hko]
      have hig : inGeneIdx gn k = false := by
        cases hgi : inGeneIdx gn k
        · rfl
        · exfalso
          rw [triggers, hio, hgi] at hk
          simp at hk
      have hig' : (gn.any fun p => p.1 == k) = false := hig
      rw [resolveLoop_cons, if_pos hko, hig']
      rw [ih hrest]
      simp [List.filter_cons, hio, isVarKey, isNotFoundKey, hig]
    · have hio : inObsCols obsCols k = false := by simp [inObsCols, hko]
      have hnm : multiGene gn k = false := by
        cases hm : multiGene gn k
        · rfl
        · exfalso
          rw [triggers, hio, hm] at hk
          simp at hk
      rw [resolveLoop_cons, if_neg hko]
      rcases hf : gn.filter (fun p => p.1 == k) with _ | ⟨p, _ | ⟨q, tl⟩⟩
      · have hig : inGeneIdx gn k = false := (inGeneIdx_eq_false_iff gn k).mpr hf
        rw [hf, ih hrest]
        simp [List.filter_cons, hio, isVarKey, isNotFoundKey, hig]
      · have hig : inGeneIdx gn k = true := by
          cases hgi : inGeneIdx gn k
          · rw [inGeneIdx_eq_false_iff] at hgi
            rw [hgi] at hf
            exact absurd hf (by simp)
          · rfl
        have hval : geneVal gn k = p.2 := by simp [geneVal, hf]
        rw [hf, ih hrest]
        simp [List.filter_cons, hio, isVarKey, isNotFoundKey, hig, hval]
      · exfalso
        have : multiGene gn k = true := by simp [multiGene, hf]
        rw [this] at hnm
        exact absurd hnm (by simp)

/-- No raising key: the loop never errors (corollary shape used by the
success theorems). -/
theorem resolveLoop_lengths (obsCols : List String) (gn : List (String × String))
    (gene_symbols : Option String) (l : List String) (r : Resolved)
    (h : resolveLoop obsCols gn gene_symbols l = .ok r) :
    r.varSymbol.length = r.varSel.length := by
  induction l generalizing r with
  | nil =>
    cases h
    rfl
  | cons k rest ih =>
    rw [resolveLoop_cons] at h
    by_cases hko : k ∈ obsCols
    · rw [if_pos hko] at h
      cases hgi : (gn.any fun p => p.1 == k) <;> rw [hgi] at h
      · simp only [Bool.false_eq_true, if_false] at h
        cases hr : resolveLoop obsCols gn gene_symbols rest <;> rw [hr] at h
        · cases h
        · cases h
          simpa using ih _ hr
      · cases h
    · rw [if_neg hko] at h
      rcases hf : gn.filter (fun p => p.1 == k) with _ | ⟨p, _ | ⟨q, tl⟩⟩ <;>
        rw [hf] at h
      · cases hr : resolveLoop obsCols gn gene_symbols rest <;> rw [hr] at h
        · cases h
        · cases h
          simpa using ih _ hr
      · cases hr : resolveLoop obsCols gn gene_symbols rest <;> rw [hr] at h
        · cases h
        · cases h
          simpa using ih _ hr
      · cases gene_symbols <;> cases h

theorem mem_npUnique {k : String} {l : List String} :
    k ∈ npUnique l ↔ k ∈ l := by
  unfold npUnique
  rw [(List.perm_insertionSort _ l.dedup).mem_iff]
  exact List.mem_dedup

theorem npUnique_nodup (l : List String) : (npUnique l).Nodup :=
  (List.perm_insertionSort _ l.dedup).nodup_iff.mpr (List.nodup_dedup l)

theorem charListLe_total : ∀ a b : List Char,
    charListLe a b = true ∨ charListLe b a = true := by
  intro a
  induction a with
  | nil =>
    intro b
    left
    rfl
  | cons x xs ih =>
    intro b
    cases b with
    | nil =>
      right
      rfl
    | cons y ys =>
      by_cases h1 : x.toNat < y.toNat
      · left
        simp [charListLe, h1]
      · by_cases h2 : y.toNat < x.toNat
        · right
          simp [charListLe, h2]
        · rcases ih ys with h | h
          · left
            simp [charListLe, h1, h2, h]
          · right
            simp [charListLe, h1, h2, h]

theorem charListLe_trans : ∀ a b c : List Char,
    charListLe a b = true → charListLe b c = true → charListLe a c = true := by
  intro a
  induction a with
  | nil =>
    intro b c _ _
    rfl
  | cons x xs ih =>
    intro b c hab hbc
    cases b with
    | nil => simp [charListLe] at hab
    | cons y ys =>
      cases c with
      | nil => simp [charListLe] at hbc
      | cons z zs =>
        by_cases h1 : x.toNat < y.toNat <;> by_cases h2 : y.toNat < z.toNat
        · simp [charListLe, lt_trans h1 h2]
        · by_cases h3 : z.toNat < y.toNat
          · simp [charListLe, h2, h3] at hbc
          · have hyz : y.toNat = z.toNat := le_antisymm (not_lt.mp h3) (not_lt.mp h2)
            simp [charListLe, hyz ▸ h1]
        · by_cases h3 : y.toNat < x.toNat
          · simp [charListLe, h1, h3] at hab
          · have hxy : x.toNat = y.toNat := le_antisymm (not_lt.mp h3) (not_lt.mp h1)
            simp [charListLe, hxy ▸ h2]
        · by_cases h3 : y.toNat < x.toNat
          · simp [charListLe, h1, h3] at hab
          · by_cases h4 : z.toNat < y.toNat
            · simp [charListLe, h2, h4] at hbc
            · have hxy : x.toNat = y.toNat := le_antisymm (not_lt.mp h3) (not_lt.mp h1)
              have hyz : y.toNat = z.toNat := le_antisymm (not_lt.mp h4) (not_lt.mp h2)
              simp [charListLe, h1, h3] at hab
              simp [charListLe, h2, h4] at hbc
              have hxz1 : ¬ x.toNat < z.toNat := by omega
              have hxz2 : ¬ z.toNat < x.toNat := by omega
              simp [charListLe, hxz1, hxz2]
              exact ih ys zs hab hbc

theorem strLe_total : IsTotal String fun a b => strLeB a b = true :=
  ⟨fun a b => charListLe_total a.data b.data⟩

theorem strLe_trans : IsTrans String fun a b => strLeB a b = true :=
  ⟨fun a b c => charListLe_trans a.data b.data c.data⟩

theorem npUnique_sorted (l : List String) :
    (npUnique l).Sorted fun a b => strLeB a b = true :=
  @List.sorted_insertionSort String _ _ strLe_total strLe_trans l.dedup

theorem npUnique_idem (l : List String) : npUnique (npUnique l) = npUnique l := by
  conv_lhs => rw [npUnique]
  rw [(npUnique_nodup l).dedup]
  exact List.Sorted.insertionSort_eq (npUnique_sorted l)

theorem npUnique_perm_of_nodup {l : List String} (h : l.Nodup) :
    List.Perm (npUnique l) l := by
  unfold npUnique
  rw [h.dedup]
  exact List.perm_insertionSort _ _

/-- Empty data frame. -/
def emptyPDF : PDF := ⟨[]⟩

/-- A container violating the claim C4 premise: the secondary matrix is
in use (`use_raw=True`) and its feature names are duplicated, while the
primary feature names and obs columns are unique. -/
def stC4 : AnnData where
  obsNames := ["c1"]
  varNames := ["v"]
  obsCols := ["c"]
  obsData := fun _ _ => "x"
  varCols := []
  varData := fun _ _ => "s"
  X := fun _ _ => 0
  layers := fun _ _ _ => 0
  raw := { varNames := ["g", "g"], varData := fun _ _ => "r", X := fun _ _ => 1 }
  obsm := fun _ => .arr fun _ _ => 0
  varm := fun _ => .arr fun _ _ => 0
  obsp := fun _ _ _ => 0
  isbacked := false

/-- C4 counterexample: with `use_raw=True` and duplicated feature names
in the secondary matrix actually used, `obs_df` succeeds (keys empty)
instead of raising a schema-violation error — the uniqueness precheck
inspects only the primary feature names. -/
theorem obs_df_raw_dup_unchecked_counterexample :
    obs_df stC4 [] [] none none true = .ok emptyPDF ∧
    ¬ stC4.raw.varNames.Nodup := by
  constructor
  · rfl
  · decide

/-- C4 amended: before any key resolution, `obs_df` checks that the obs
metadata column names are unique — raising an error that names the
offending columns — and that the PRIMARY feature names are unique
regardless of `use_raw` — raising an error that directs the caller to
deduplicate but names no offenders; both checks run for every call,
whatever the requested keys (given the `use_raw`/`layer` assertion
passes, which precedes them). -/
theorem obs_df_prechecks (st : AnnData) (keys : List String)
    (obsm_keys : List (String × Nat)) (layer : Option String)
    (gene_symbols : Option String) (use_raw : Bool)
    (hlayer : use_raw = true → layer = none) :
    (¬ st.obsCols.Nodup →
      obs_df st keys obsm_keys layer gene_symbols use_raw =
        .error (.dupObsCols (dupEntries [] st.obsCols))) ∧
    (st.obsCols.Nodup → ¬ st.varNames.Nodup →
      obs_df st keys obsm_keys layer gene_symbols use_raw =
        .error .dupVarNames) := by
  have hco : (use_raw && layer.isSome) = false := by
    cases use_raw
    · rfl
    · rw [hlayer rfl]
      rfl
  constructor
  · intro h
    rw [obs_df, hco]
    simp [h]
  · intro h1 h2
    rw [obs_df, hco]
    simp [h1, h2]

/-- Witness for the amended C4: both prechecks observed firing on
concrete containers. -/
theorem obs_df_prechecks_witness :
    obs_df { stC4 with obsCols := ["c", "c"] } ["k"] [] none none false =
      .error (.dupObsCols ["c"]) ∧
    obs_df { stC4 with varNames := ["v", "v"] } ["k"] [] none none false =
      .error .dupVarNames :=
  ⟨(obs_df_prechecks { stC4 with obsCols := ["c", "c"] } ["k"] [] none none false
      (by intro h; cases h)).1 (by decide),
   (obs_df_prechecks { stC4 with varNames := ["v", "v"] } ["k"] [] none none false
      (by intro h; cases h)).2 (by decide) (by decide)⟩

/-- A raising key somewhere in the list: the loop ends in an ambiguity
error naming a genuinely ambiguous key of the list (provided no
multiple-match key is hit while no alias column is in use, which would
instead fail the internal assertion). -/
theorem resolveLoop_err_of_trigger (obsCols : List String)
    (gn : List (String × String)) (gene_symbols : Option String)
    (l : List String)
    (hassert : ∀ k ∈ l, multiGene gn k = true → gene_symbols ≠ none)
    (htrig : ∃ k ∈ l, triggers obsCols gn k = true) :
    (∃ k', k' ∈ l ∧ inObsCols obsCols k' = true ∧ inGeneIdx gn k' = true ∧
        resolveLoop obsCols gn gene_symbols l = .error (.ambiguous k')) ∨
    (∃ k' col, k' ∈ l ∧ multiGene gn k' = true ∧ gene_symbols = some col ∧
        resolveLoop obsCols gn gene_symbols l =
          .error (.ambiguousAlias k' col)) := by
  induction l with
  | nil =>
    rcases htrig with ⟨k, hk, _⟩
    cases hk
  | cons k rest ih =>
    have hastl : ∀ k' ∈ rest, multiGene gn k' = true → gene_symbols ≠ none :=
      fun k' hk' => hassert k' (by simp [hk'])
    by_cases hko : k ∈ obsCols
    · have hio : inObsCols obsCols k = true := by simp [inObsCols, hko]
      cases hgi : (gn.any fun p => p.1 == k)
      · have htk : triggers obsCols gn k = false := by
          rw [triggers, hio]
          show (true && inGeneIdx gn k || _) = false
          rw [show inGeneIdx gn k = false from hgi]
          simp
        have htrest : ∃ k' ∈ rest, triggers obsCols gn k' = true := by
          rcases htrig with ⟨k0, hk0, ht0⟩
          rcases List.mem_cons.mp hk0 with rfl | hk0'
          · rw [htk] at ht0
            cases ht0
          · exact ⟨k0, hk0', ht0⟩
        rcases ih hastl htrest with ⟨k', hk', h1, h2, heq⟩ | ⟨k', col, hk', h1, h2, heq⟩
        · refine Or.inl ⟨k', by simp [hk'], h1, h2, ?_⟩
          rw [resolveLoop_cons, if_pos hko, hgi, heq] <;> rfl
        · refine Or.inr ⟨k', col, by simp [hk'], h1, h2, ?_⟩
          rw [resolveLoop_cons, if_pos hko, hgi, heq] <;> rfl
      · refine Or.inl ⟨k, by simp, hio, hgi, ?_⟩
        rw [resolveLoop_cons, if_pos hko, hgi] <;> rfl
    · have hio : inObsCols obsCols k = false := by simp [inObsCols, hko]
      rcases hf : gn.filter (fun p => p.1 == k) with _ | ⟨p, _ | ⟨q, tl⟩⟩
      · have htk : triggers obsCols gn k = false := by
          rw [triggers, hio]
          have hm : multiGene gn k = false := by simp [multiGene, hf]
          rw [hm]
          simp
        have htrest : ∃ k' ∈ rest, triggers obsCols gn k' = true := by
          rcases htrig with ⟨k0, hk0, ht0⟩
          rcases List.mem_cons.mp hk0 with rfl | hk0'
          · rw [htk] at ht0
            cases ht0
          · exact ⟨k0, hk0', ht0⟩
        rcases ih hastl htrest with ⟨k', hk', h1, h2, heq⟩ | ⟨k', col, hk', h1, h2, heq⟩
        · refine Or.inl ⟨k', by simp [hk'], h1, h2, ?_⟩
          rw [resolveLoop_cons, if_neg hko, hf, heq] <;> rfl
        · refine Or.inr ⟨k', col, by simp [hk'], h1, h2, ?_⟩
          rw [resolveLoop_cons, if_neg hko, hf, heq] <;> rfl
      · have htk : triggers obsCols gn k = false := by
          rw [triggers, hio]
          have hm : multiGene gn k = false := by simp [multiGene, hf]
          rw [hm]
          simp
        have htrest : ∃ k' ∈ rest, triggers obsCols gn k' = true := by
          rcases htrig with ⟨k0, hk0, ht0⟩
          rcases List.mem_cons.mp hk0 with rfl | hk0'
          · rw [htk] at ht0
            cases ht0
          · exact ⟨k0, hk0', ht0⟩
        rcases ih hastl htrest with ⟨k', hk', h1, h2, heq⟩ | ⟨k', col, hk', h1, h2, heq⟩
        · refine Or.inl ⟨k', by simp [hk'], h1, h2, ?_⟩
          rw [resolveLoop_cons, if_neg hko, hf, heq] <;> rfl
        · refine Or.inr ⟨k', col, by simp [hk'], h1, h2, ?_⟩
          rw [resolveLoop_cons, if_neg hko, hf, heq] <;> rfl
      · have hmk : multiGene gn k = true := by simp [multiGene, hf]
        rcases hgs : gene_symbols with _ | col
        · exact absurd hgs (hassert k (by simp) hmk)
        · refine Or.inr ⟨k, col, by simp, hmk, rfl, ?_⟩
          rw [resolveLoop_cons, if_neg hko, hf] <;> rfl

/-- No key can multiply match when the index is the identity over
unique feature names. -/
theorem multiGene_identity_nodup {uvn : List String} (h : uvn.Nodup)
    (k : String) : multiGene (uvn.map fun n => (n, n)) k = false := by
  simp only [multiGene, decide_eq_false_iff_not, not_le]
  have : ((uvn.map fun n => (n, n)).filter fun p => p.1 == k) =
      (uvn.filter fun n => n == k).map fun n => (n, n) := by
    rw [List.filter_map]
    rfl
  rw [this, List.length_map]
  have hc := List.nodup_iff_count_le_one.mp h k
  rw [List.count] at hc
  calc (uvn.filter fun n => n == k).length
      = (uvn.countP fun n => n == k) := (List.countP_eq_length_filter _ _).symm
    _ ≤ 1 := hc
    _ < 2 := by omega

/-- Bool-valued statement that a result is an ambiguity error naming a
genuinely ambiguous requested key (and, for the alias form, the alias
column in use). -/
def isAmbigErrFor (obsCols : List String) (gn : List (String × String))
    (gs : Option String) (keys : List String) : Except Err PDF → Bool
  | .error (.ambiguous k) =>
      decide (k ∈ keys) && inObsCols obsCols k && inGeneIdx gn k
  | .error (.ambiguousAlias k col) =>
      decide (k ∈ keys) && multiGene gn k && decide (gs = some col)
  | _ => false

/-- C3: whenever some requested key resolves in more than one namespace
(obs metadata column and the feature namespace, or several features via
the alias column), `obs_df` raises an ambiguous-key error naming such a
key (and the alias column in the alias case) — it never silently picks
one resolution.  Hypotheses: the prechecks pass, the assertion-guarded
corner (duplicated raw names with no alias column) is excluded, and the
`use_raw`/`layer` assertion passes. -/
theorem obs_df_ambiguous_key (st : AnnData) (keys : List String)
    (obsm_keys : List (String × Nat)) (layer : Option String)
    (gene_symbols : Option String) (use_raw : Bool)
    (hlayer : use_raw = true → layer = none)
    (hobs : st.obsCols.Nodup) (hvar : st.varNames.Nodup)
    (hid : gene_symbols = none → (usedVarNames st use_raw).Nodup)
    (hamb : ∃ k ∈ keys,
      triggers st.obsCols (geneNames st gene_symbols use_raw) k = true) :
    isAmbigErrFor st.obsCols (geneNames st gene_symbols use_raw)
      gene_symbols keys
      (obs_df st keys obsm_keys layer gene_symbols use_raw) = true := by
  have hco : (use_raw && layer.isSome) = false := by
    cases use_raw
    · rfl
    · rw [hlayer rfl]
      rfl
  have hassert : ∀ k ∈ npUnique keys,
      multiGene (geneNames st gene_symbols use_raw) k = true →
        gene_symbols ≠ none := by
    intro k _ hm hgs
    rw [hgs] at hm
    rw [geneNames] at hm
    rw [multiGene_identity_nodup (hid hgs) k] at hm
    cases hm
  have htrig : ∃ k ∈ npUnique keys,
      triggers st.obsCols (geneNames st gene_symbols use_raw) k = true := by
    rcases hamb with ⟨k, hk, ht⟩
    exact ⟨k, mem_npUnique.mpr hk, ht⟩
  unfold obs_df
  rw [hco]
  simp only [Bool.false_eq_true, if_false]
  rw [if_pos hobs, if_pos hvar]
  rcases resolveLoop_err_of_trigger st.obsCols
      (geneNames st gene_symbols use_raw) gene_symbols (npUnique keys)
      hassert htrig with
    ⟨k', hk', h1, h2, heq⟩ | ⟨k', col, hk', h1, h2, heq⟩
  · rw [heq]
    simp [isAmbigErrFor, h1, h2, mem_npUnique.mp hk']
  · rw [heq]
    subst h2
    simp [isAmbigErrFor, h1, mem_npUnique.mp hk']

/-- A container on which the key "a" is both an obs column and a feature
name. -/
def stC3 : AnnData where
  obsNames := ["c1"]
  varNames := ["a", "g"]
  obsCols := ["a"]
  obsData := fun _ _ => "x"
  varCols := []
  varData := fun _ _ => "s"
  X := fun _ _ => 0
  layers := fun _ _ _ => 0
  raw := { varNames := ["r"], varData := fun _ _ => "r", X := fun _ _ => 1 }
  obsm := fun _ => .arr fun _ _ => 0
  varm := fun _ => .arr fun _ _ => 0
  obsp := fun _ _ _ => 0
  isbacked := false

/-- Witness for C3: the cross-namespace key "a" makes the call end in an
ambiguity error naming it. -/
theorem obs_df_ambiguous_key_witness :
    isAmbigErrFor stC3.obsCols (geneNames stC3 none false) none ["a"]
      (obs_df stC3 ["a"] [] none none false) = true :=
  obs_df_ambiguous_key stC3 ["a"] [] none none false
    (by intro h; cases h) (by decide) (by decide) (fun _ => by decide)
    ⟨"a", by decide, by decide⟩

/-- C5 counterexample: with the ambiguous key "a" and the unresolvable
key "m" both requested, `obs_df` raises the ambiguity error — not the
claimed single aggregate error listing all unresolved keys. -/
theorem obs_df_not_found_counterexample :
    obs_df stC3 ["a", "m"] [] none none false = .error (.ambiguous "a") ∧
    isNotFoundKey stC3.obsCols (geneNames stC3 none false) "m" = true := by
  constructor
  · rfl
  · decide

/-- C5 amended: provided the prechecks pass and no requested key is
ambiguous, when one or more requested keys match neither the obs-column
namespace nor the feature namespace, `obs_df` raises a single error
listing all unresolved keys together (in sorted deduplicated order) and
carrying which feature namespace was searched (the alias column, when
given) and which matrix was searched (`use_raw`). -/
theorem obs_df_not_found (st : AnnData) (keys : List String)
    (obsm_keys : List (String × Nat)) (layer : Option String)
    (gene_symbols : Option String) (use_raw : Bool)
    (hlayer : use_raw = true → layer = none)
    (hobs : st.obsCols.Nodup) (hvar : st.varNames.Nodup)
    (hnt : ∀ k ∈ keys,
      triggers st.obsCols (geneNames st gene_symbols use_raw) k = false)
    (hnf : (npUnique keys).filter
      (isNotFoundKey st.obsCols (geneNames st gene_symbols use_raw)) ≠ []) :
    obs_df st keys obsm_keys layer gene_symbols use_raw =
      .error (.notFound
        ((npUnique keys).filter
          (isNotFoundKey st.obsCols (geneNames st gene_symbols use_raw)))
        use_raw gene_symbols) := by
  have hco : (use_raw && layer.isSome) = false := by
    cases use_raw
    · rfl
    · rw [hlayer rfl]
      rfl
  unfold obs_df
  rw [hco]
  simp only [Bool.false_eq_true, if_false]
  rw [if_pos hobs, if_pos hvar]
  rw [resolveLoop_ok _ _ _ _ fun k hk => hnt k (mem_npUnique.mp hk)]
  simp [hnf]

/-- Witness for the amended C5: requesting only the unresolvable key "m"
yields the aggregate error listing it, with the searched namespaces. -/
theorem obs_df_not_found_witness :
    obs_df stC4 ["m"] [] none none false =
      .error (.notFound
        ((npUnique ["m"]).filter
          (isNotFoundKey stC4.obsCols (geneNames stC4 none false)))
        false none) :=
  obs_df_not_found stC4 ["m"] [] none none false
    (by intro h; cases h) (by decide) (by decide)
    (by intro k hk; fin_cases hk; decide) (by decide)

/-- One unfolding step of the `var_df` resolution loop. -/
theorem resolveVarLoop_cons (st : AnnData) (k : String) (rest : List String) :
    resolveVarLoop st (k :: rest) =
      (let r := resolveVarLoop st rest
       if k ∈ st.obsNames then { r with obsSel := k :: r.obsSel }
       else if k ∈ st.varCols then { r with varSel := k :: r.varSel }
       else { r with notFound := k :: r.notFound }) := rfl

/-- The `var_df` loop is a pure partition: obs names take priority over
var-metadata columns, nothing raises. -/
theorem resolveVarLoop_eq (st : AnnData) (l : List String) :
    resolveVarLoop st l =
      ⟨l.filter fun k => decide (k ∈ st.obsNames),
       l.filter fun k => !decide (k ∈ st.obsNames) && decide (k ∈ st.varCols),
       l.filter fun k => !decide (k ∈ st.obsNames) &&
         !decide (k ∈ st.varCols)⟩ := by
  induction l with
  | nil => rfl
  | cons k rest ih =>
    rw [resolveVarLoop_cons]
    simp only [ih]
    by_cases h1 : k ∈ st.obsNames
    · simp [List.filter_cons, h1]
    · by_cases h2 : k ∈ st.varCols
      · simp [List.filter_cons, h1, h2]
      · simp [List.filter_cons, h1, h2]

/-- With a unique obs-name index, the transposed block assembly always
succeeds. -/
theorem buildObsBlockT_ok (st : AnnData) (layer : Option String)
    (res : VResolved) (hnd : st.obsNames.Nodup) :
    ∃ ocols, buildObsBlockT st layer res = .ok ocols := by
  unfold buildObsBlockT
  by_cases h : res.obsSel = []
  · rw [if_pos h]
    exact ⟨[], rfl⟩
  · rw [if_neg h]
    rcases layer with _ | l
    · rw [show _get_obs_rep st (.bool false) none none none =
        .ok (.matr st.X) from rfl]
      dsimp only
      rw [if_pos hnd]
      exact ⟨_, rfl⟩
    · rw [show _get_obs_rep st (.bool false) (some l) none none =
        .ok (.matr (st.layers l)) from rfl]
      dsimp only
      rw [if_pos hnd]
      exact ⟨_, rfl⟩

/-- A container with the name "a" present both among the observation
names and among the var-metadata columns. -/
def stC9 : AnnData where
  obsNames := ["a", "b"]
  varNames := ["g"]
  obsCols := []
  obsData := fun _ _ => "x"
  varCols := ["a", "v"]
  varData := fun _ _ => "s"
  X := fun i j => (i : Rat) * 10 + j
  layers := fun _ _ _ => 0
  raw := { varNames := ["g"], varData := fun _ _ => "r", X := fun _ _ => 1 }
  obsm := fun _ => .arr fun _ _ => 0
  varm := fun _ => .arr fun _ _ => 0
  obsp := fun _ _ _ => 0
  isbacked := false

/-- C9 counterexample: the key "a" is present in both of the resolver
namespaces (observation names and var-metadata columns), yet `var_df`
succeeds — no schema-violation precheck and no ambiguous-key error
exists in this resolver. -/
theorem var_df_ambiguity_counterexample :
    (var_df stC9 ["a"] [] none).isOk = true ∧
    "a" ∈ stC9.obsNames ∧ "a" ∈ stC9.varCols := by
  refine ⟨?_, by decide, by decide⟩
  rfl

/-- C9 amended: `var_df` performs no uniqueness precheck and no
cross-namespace ambiguity check: whenever every requested key resolves
in at least one of its two namespaces (and the obs-name index itself is
unique), the call succeeds — even when keys are present in both
namespaces.  Its only resolution error is the aggregated not-found
error. -/
theorem var_df_no_ambiguity_checks (st : AnnData) (keys : List String)
    (layer : Option String) (hnd : st.obsNames.Nodup)
    (hres : ∀ k ∈ keys, k ∈ st.obsNames ∨ k ∈ st.varCols) :
    (var_df st keys [] layer).isOk = true := by
  have hnf : ((npUnique keys).filter fun k =>
      !decide (k ∈ st.obsNames) && !decide (k ∈ st.varCols)) = [] := by
    rw [List.filter_eq_nil_iff]
    intro a ha
    rcases hres a (mem_npUnique.mp ha) with h | h <;> simp [h]
  obtain ⟨ocols, hoc⟩ := buildObsBlockT_ok st layer
    (resolveVarLoop st (npUnique keys)) hnd
  simp only [var_df]
  rw [resolveVarLoop_eq] at hoc ⊢
  dsimp only
  rw [hnf] at hoc ⊢
  rw [if_pos rfl, hoc]
  rfl

/-- Witness for the amended C9: concrete success despite "a" being in
both namespaces. -/
theorem var_df_no_ambiguity_checks_witness :
    (var_df stC9 ["a", "v"] [] none).isOk = true :=
  var_df_no_ambiguity_checks stC9 ["a", "v"] none (by decide)
    (by intro k hk; fin_cases hk <;> [exact Or.inl (by decide);
      exact Or.inr (by decide)])

/-- C10: a key present in both `adata.obs_names` and the var-metadata
columns is silently resolved as an observation name: the output column
is the corresponding matrix row transposed, the var-metadata column of
the same name is never consulted, and no error is raised. -/
theorem var_df_obs_name_priority (st : AnnData) (k : String)
    (hobs : k ∈ st.obsNames) (hvc : k ∈ st.varCols)
    (hnd : st.obsNames.Nodup) :
    var_df st [k] [] none =
      .ok ⟨[(k, fun v => Cell.num (st.X (st.obsNames.indexOf k) v))]⟩ := by
  have hnp : npUnique [k] = [k] := rfl
  have hres : resolveVarLoop st [k] = ⟨[k], [], []⟩ := by
    rw [resolveVarLoop_cons]
    rw [show resolveVarLoop st [] = ⟨[], [], []⟩ from rfl]
    simp [hobs]
  have hblock : buildObsBlockT st none ⟨[k], [], []⟩ =
      .ok [(k, fun v => Cell.num (st.X (st.obsNames.indexOf k) v))] := by
    unfold buildObsBlockT
    rw [if_neg (by simp : ¬ ([k] : List String) = [])]
    rw [show _get_obs_rep st (.bool false) none none none =
      .ok (.matr st.X) from rfl]
    dsimp only
    rw [if_pos hnd]
    cases hb : st.isbacked
    · rfl
    · dsimp only [cond]
      rw [enum_map_singleton]
      dsimp only
      refine congrArg Except.ok ?_
      refine congrArg (fun c => [(k, c)]) ?_
      funext v
      rw [backedRowSelect_eq st.X
        (List.map (fun n => st.obsNames.indexOf n) [k]) 0 v (by simp)]
      rfl
  simp only [var_df]
  rw [hnp, hres]
  dsimp only
  rw [if_pos rfl, hblock]
  dsimp only
  rw [applyBlocks_nil]
  refine congrArg Except.ok ?_
  simp [selectCols, findCol, varColsBlock]

/-- Witness for C10: on the concrete container, "a" resolves as
observation row 0 of the matrix. -/
theorem var_df_obs_name_priority_witness :
    var_df stC9 ["a"] [] none =
      .ok ⟨[("a", fun v => Cell.num (stC9.X (stC9.obsNames.indexOf "a") v))]⟩ :=
  var_df_obs_name_priority stC9 "a" (by decide) (by decide) (by decide)

/-- One unfolding step of the auxiliary-column loop. -/
theorem applyBlocks_cons (blocks : String → Block) (bk : String × Nat)
    (rest : List (String × Nat)) (df : PDF) :
    applyBlocks blocks (bk :: rest) df =
      (match fetchBlock (blocks bk.1) bk.2 with
       | .error e => .error e
       | .ok c => applyBlocks blocks rest (setCol df (obsmLabel bk) c)) := rfl

/-- Setting a column whose label is not present appends it. -/
theorem setCol_fresh (df : PDF) (lb : String) (c : Col)
    (h : lb ∉ df.cols.map Prod.fst) :
    setCol df lb c = ⟨df.cols ++ [(lb, c)]⟩ := by
  have hany : (df.cols.any fun p => p.1 == lb) = false := by
    rw [List.any_eq_false]
    intro p hp
    simp only [beq_iff_eq]
    intro he
    exact h (he ▸ List.mem_map_of_mem Prod.fst hp)
  rw [setCol, hany]
  simp

/-- On success, the auxiliary loop appends exactly one column per pair,
labeled `f"{k}-{idx}"`, in call order — provided those labels are fresh
and pairwise distinct (a colliding label would overwrite in place
instead). -/
theorem applyBlocks_labels (blocks : String → Block)
    (bks : List (String × Nat)) (df out : PDF)
    (h : applyBlocks blocks bks df = .ok out)
    (hnd : (bks.map obsmLabel).Nodup)
    (hfresh : ∀ bk ∈ bks, obsmLabel bk ∉ df.cols.map Prod.fst) :
    out.cols.map Prod.fst = df.cols.map Prod.fst ++ bks.map obsmLabel := by
  induction bks generalizing df with
  | nil =>
    rw [applyBlocks_nil] at h
    cases h
    simp
  | cons bk rest ih =>
    rw [applyBlocks_cons] at h
    cases hf : fetchBlock (blocks bk.1) bk.2 <;> rw [hf] at h
    · cases h
    · rename_i c
      dsimp only at h
      have hset : setCol df (obsmLabel bk) c = ⟨df.cols ++ [(obsmLabel bk, c)]⟩ :=
        setCol_fresh df (obsmLabel bk) c (hfresh bk (by simp))
      rw [hset] at h
      have hnd2 : obsmLabel bk ∉ rest.map obsmLabel ∧
          (rest.map obsmLabel).Nodup := by
        have hx := hnd
        simp only [List.map_cons, List.nodup_cons] at hx
        exact hx
      have hfr : ∀ bk' ∈ rest, obsmLabel bk' ∉
          (⟨df.cols ++ [(obsmLabel bk, c)]⟩ : PDF).cols.map Prod.fst := by
        intro bk' hbk'
        simp only [List.map_append, List.mem_append]
        rintro (hin | hin)
        · exact hfresh bk' (by simp [hbk']) hin
        · simp at hin
          exact hnd2.1 (hin ▸ List.mem_map_of_mem obsmLabel hbk')
      have := ih _ h hnd2.2 hfr
      rw [this]
      simp

/-- Inversion of a successful `obs_df` run: the resolution, block
assembly, and auxiliary-column stages all succeeded, and the result is
their composition. -/
theorem obs_df_ok_shape (st : AnnData) (keys : List String)
    (obsm_keys : List (String × Nat)) (layer gs : Option String)
    (uraw : Bool) (df : PDF)
    (h : obs_df st keys obsm_keys layer gs uraw = .ok df) :
    ∃ res vcols,
      resolveLoop st.obsCols (geneNames st gs uraw) gs (npUnique keys) =
        .ok res ∧
      res.notFound = [] ∧
      buildVarBlock st layer uraw res = .ok vcols ∧
      applyBlocks st.obsm obsm_keys
        (selectCols ⟨vcols ++ obsBlockCols st res.obsSel⟩ keys) = .ok df := by
  simp only [obs_df] at h
  by_cases h1 : (uraw && layer.isSome) = true
  · rw [if_pos h1] at h
    cases h
  · rw [if_neg h1] at h
    by_cases h2 : st.obsCols.Nodup
    · rw [if_pos h2] at h
      by_cases h3 : st.varNames.Nodup
      · rw [if_pos h3] at h
        cases hr : resolveLoop st.obsCols (geneNames st gs uraw) gs
            (npUnique keys) <;> rw [hr] at h
        · cases h
        · rename_i res
          dsimp only at h
          by_cases h4 : res.notFound = []
          · rw [if_pos h4] at h
            cases hb : buildVarBlock st layer uraw res <;> rw [hb] at h
            · cases h
            · dsimp only at h
              exact ⟨res, _, rfl, h4, hb, h⟩
          · rw [if_neg h4] at h
            cases h
      · rw [if_neg h3] at h
        cases h
    · rw [if_neg h2] at h
      cases h

/-- A container whose obs metadata has a column literally named "A-0",
colliding with the label of obsm block "A", column 0. -/
def stC1 : AnnData where
  obsNames := ["c1"]
  varNames := ["g"]
  obsCols := ["A-0"]
  obsData := fun _ _ => "x"
  varCols := []
  varData := fun _ _ => "s"
  X := fun _ _ => 0
  layers := fun _ _ _ => 0
  raw := { varNames := ["g"], varData := fun _ _ => "r", X := fun _ _ => 1 }
  obsm := fun _ => .arr fun _ _ => 9
  varm := fun _ => .arr fun _ _ => 0
  obsp := fun _ _ _ => 0
  isbacked := false

/-- C1 counterexample: requesting the key "A-0" together with the obsm
pair ("A", 0) succeeds but yields ONE column — the obsm assignment
`df["A-0"] = ...` overwrites the key column in place — not the two
columns (requested keys followed by one obsm column) the claim
promises. -/
theorem obs_df_columns_counterexample :
    ((obs_df stC1 ["A-0"] [("A", 0)] none none false).map
      fun df => df.cols.map Prod.fst) = .ok ["A-0"] ∧
    (["A-0"] : List String) ≠ ["A-0"] ++ [obsmLabel ("A", 0)] := by
  constructor
  · rfl
  · decide

/-- C1 amended: on every successful `obs_df` call whose obsm labels
`f"{k}-{idx}"` are pairwise distinct and distinct from every requested
key, the output columns are exactly the requested keys, positionally in
request order including repeats, followed by one column per requested
(obsm block, index) pair, labeled `f"{k}-{idx}"`, in call order.  (A
colliding label is instead overwritten in place, see the
counterexample.) -/
theorem obs_df_columns (st : AnnData) (keys : List String)
    (obsm_keys : List (String × Nat)) (layer gs : Option String)
    (uraw : Bool) (df : PDF)
    (h : obs_df st keys obsm_keys layer gs uraw = .ok df)
    (hnd : (obsm_keys.map obsmLabel).Nodup)
    (hfresh : ∀ bk ∈ obsm_keys, obsmLabel bk ∉ keys) :
    df.cols.map Prod.fst = keys ++ obsm_keys.map obsmLabel := by
  obtain ⟨res, vcols, hr, hnf, hb, happ⟩ :=
    obs_df_ok_shape st keys obsm_keys layer gs uraw df h
  have hsel : (selectCols ⟨vcols ++ obsBlockCols st res.obsSel⟩ keys).cols.map
      Prod.fst = keys := by
    simp only [selectCols, List.map_map]
    show keys.map (fun k => k) = keys
    simp
  have hfr : ∀ bk ∈ obsm_keys, obsmLabel bk ∉
      (selectCols ⟨vcols ++ obsBlockCols st res.obsSel⟩ keys).cols.map
        Prod.fst := by
    intro bk hbk
    rw [hsel]
    exact hfresh bk hbk
  rw [applyBlocks_labels st.obsm obsm_keys _ df happ hnd hfr, hsel]

/-- The data frame produced by the witness call for C1. -/
def dfC1 : PDF :=
  ((obs_df stW ["G1", "cluster"] [("P", 0)] none none false).toOption).getD
    emptyPDF

/-- Witness for the amended C1: a successful call with one feature key,
one metadata key, and one obsm pair yields exactly those three labels in
order. -/
theorem obs_df_columns_witness :
    dfC1.cols.map Prod.fst = ["G1", "cluster"] ++ [("P", 0)].map obsmLabel :=
  obs_df_columns stW ["G1", "cluster"] [("P", 0)] none none false dfC1 rfl
    (by decide) (by decide)

theorem fst_lt_of_mem_enum {α : Type} {l : List α} {p : Nat × α}
    (h : p ∈ l.enum) : p.1 < l.length := by
  rw [List.mem_enum_iff_get?] at h
  obtain ⟨hl, _⟩ := List.get?_eq_some.mp h
  exact hl

/-- Feature-column assembly only reads the matrix at positions below the
symbol count. -/
theorem varBlockCols_congr (symbols : List String) (m1 m2 : Nat → Nat → Rat)
    (h : ∀ i j, j < symbols.length → m1 i j = m2 i j) :
    varBlockCols symbols m1 = varBlockCols symbols m2 := by
  unfold varBlockCols
  apply List.map_congr_left
  intro p hp
  have hlt : p.1 < symbols.length := fst_lt_of_mem_enum hp
  have : (fun i => Cell.num (m1 i p.1)) = fun i => Cell.num (m2 i p.1) := by
    funext i
    rw [h i p.1 hlt]
  rw [this]

/-- The backed fetch of `obs_df` agrees with plain column selection on
every column the assembly reads. -/
theorem buildVarBlock_unback (st : AnnData) (layer : Option String)
    (uraw : Bool) (res : Resolved)
    (hlen : res.varSymbol.length ≤ res.varSel.length) :
    buildVarBlock { st with isbacked := false } layer uraw res =
      buildVarBlock st layer uraw res := by
  unfold buildVarBlock
  cases hb : st.isbacked
  · rfl
  · by_cases hv : res.varSel = []
    · simp only [if_pos hv]
    · simp only [if_neg hv]
      rw [show _get_obs_rep { st with isbacked := false } (RawArg.bool uraw)
        layer none none = _get_obs_rep st (RawArg.bool uraw) layer none none
        from rfl]
      cases hg : _get_obs_rep st (RawArg.bool uraw) layer none none
      · rfl
      · rename_i val
        cases val
        · rename_i X
          dsimp only
          rw [show usedVarNames { st with isbacked := false } uraw =
            usedVarNames st uraw from rfl]
          by_cases hn : (usedVarNames st uraw).Nodup
          · simp only [if_pos hn]
            dsimp only [cond]
            refine congrArg Except.ok ?_
            apply varBlockCols_congr
            intro i j hj
            have hjlt : j < (res.varSel.map fun n =>
                (usedVarNames st uraw).indexOf n).length := by
              rw [List.length_map]
              omega
            exact (backedColSelect_eq X _ i j hjlt).symm
          · simp only [if_neg hn]
        · rfl

/-- The transposed assembly of `var_df`, likewise. -/
theorem buildObsBlockT_unback (st : AnnData) (layer : Option String)
    (res : VResolved) :
    buildObsBlockT { st with isbacked := false } layer res =
      buildObsBlockT st layer res := by
  unfold buildObsBlockT
  cases hb : st.isbacked
  · rfl
  · by_cases hv : res.obsSel = []
    · simp only [if_pos hv]
    · simp only [if_neg hv]
      rw [show _get_obs_rep { st with isbacked := false } (RawArg.bool false)
        layer none none = _get_obs_rep st (RawArg.bool false) layer none none
        from rfl]
      cases hg : _get_obs_rep st (RawArg.bool false) layer none none
      · rfl
      · rename_i val
        cases val
        · rename_i X
          dsimp only
          by_cases hn : st.obsNames.Nodup
          · simp only [if_pos hn]
            dsimp only [cond]
            refine congrArg Except.ok ?_
            apply List.map_congr_left
            intro p hp
            have hlt : p.1 < (res.obsSel.map fun n =>
                st.obsNames.indexOf n).length := by
              rw [List.length_map]
              exact fst_lt_of_mem_enum hp
            have : (fun v => Cell.num (rowSelect X
                (res.obsSel.map fun n => st.obsNames.indexOf n) p.1 v)) =
                fun v => Cell.num (backedRowSelect X
                  (res.obsSel.map fun n => st.obsNames.indexOf n) p.1 v) := by
              funext v
              rw [backedRowSelect_eq X _ p.1 v hlt]
            rw [this]
          · simp only [if_neg hn]
        · rfl

/-- The var resolution loop ignores the backing flag. -/
theorem resolveVarLoop_unback (st : AnnData) (l : List String) :
    resolveVarLoop { st with isbacked := false } l = resolveVarLoop st l := by
  rw [resolveVarLoop_eq, resolveVarLoop_eq]

/-- The backing flag only alters the fetch access pattern of `obs_df`,
never its result. -/
theorem obs_df_unback (st : AnnData) (keys : List String)
    (obsm_keys : List (String × Nat)) (layer gs : Option String)
    (uraw : Bool) :
    obs_df { st with isbacked := false } keys obsm_keys layer gs uraw =
      obs_df st keys obsm_keys layer gs uraw := by
  simp only [obs_df]
  simp only [show geneNames { st with isbacked := false } gs uraw =
    geneNames st gs uraw from rfl]
  simp only [show obsBlockCols { st with isbacked := false } =
    obsBlockCols st from rfl]
  by_cases h1 : (uraw && layer.isSome) = true
  · simp only [if_pos h1]
  · simp only [if_neg h1]
    by_cases h2 : st.obsCols.Nodup
    · simp only [if_pos h2]
      by_cases h3 : st.varNames.Nodup
      · simp only [if_pos h3]
        cases hr : resolveLoop st.obsCols (geneNames st gs uraw) gs
            (npUnique keys)
        · rfl
        · rename_i res
          dsimp only
          by_cases h4 : res.notFound = []
          · simp only [if_pos h4]
            rw [buildVarBlock_unback st layer uraw res
              (le_of_eq (resolveLoop_lengths _ _ _ _ _ hr))]
          · simp only [if_neg h4]
      · simp only [if_neg h3]
    · simp only [if_neg h2]

/-- The backing flag only alters the fetch access pattern of `var_df`,
never its result. -/
theorem var_df_unback (st : AnnData) (keys : List String)
    (varm_keys : List (String × Nat)) (layer : Option String) :
    var_df { st with isbacked := false } keys varm_keys layer =
      var_df st keys varm_keys layer := by
  simp only [var_df]
  simp only [resolveVarLoop_unback]
  simp only [show varColsBlock { st with isbacked := false } =
    varColsBlock st from rfl]
  simp only [buildObsBlockT_unback]

theorem findCol_cons (p : String × Col) (l : List (String × Col))
    (k : String) :
    findCol ⟨p :: l⟩ k = if p.1 == k then some p.2 else findCol ⟨l⟩ k := by
  simp only [findCol, List.find?_cons]
  cases hpk : (p.1 == k)
  · simp [hpk]
  · simp [hpk]

/-- Selection `df[keys]` looks every requested key up in the base
frame; duplicate requests share one base column. -/
theorem findCol_selectCols (base : PDF) (keys : List String) (k : String)
    (hk : k ∈ keys) :
    findCol (selectCols base keys) k =
      some ((findCol base k).getD emptyCol) := by
  induction keys with
  | nil => cases hk
  | cons k0 rest ih =>
    show findCol ⟨(k0, (findCol base k0).getD emptyCol) ::
      (selectCols base rest).cols⟩ k = _
    rw [findCol_cons]
    cases he : (k0 == k)
    · have hkr : k ∈ rest := by
        rcases List.mem_cons.mp hk with rfl | hr
        · simp at he
        · exact hr
      simp only [Bool.false_eq_true, if_false]
      exact ih hkr
    · have : k0 = k := by simpa using he
      subst this
      simp

/-- Inversion of a successful `var_df` run. -/
theorem var_df_ok_shape (st : AnnData) (keys : List String)
    (varm_keys : List (String × Nat)) (layer : Option String) (df : PDF)
    (h : var_df st keys varm_keys layer = .ok df) :
    ∃ ocols,
      buildObsBlockT st layer (resolveVarLoop st (npUnique keys)) =
        .ok ocols ∧
      (resolveVarLoop st (npUnique keys)).notFound = [] ∧
      applyBlocks st.varm varm_keys (selectCols
        ⟨ocols ++ varColsBlock st (resolveVarLoop st (npUnique keys)).varSel⟩
        keys) = .ok df := by
  simp only [var_df] at h
  by_cases h1 : (resolveVarLoop st (npUnique keys)).notFound = []
  · rw [if_pos h1] at h
    cases hb : buildObsBlockT st layer (resolveVarLoop st (npUnique keys)) <;>
      rw [hb] at h
    · cases h
    · dsimp only at h
      exact ⟨_, rfl, h1, h⟩
  · rw [if_neg h1] at h
    cases h

/-- C2: on an out-of-core (backed) container, `obs_df` fetches the
backing block by sorting the resolved positions, fetching in sorted
order, and un-sorting back — so that (a) for every requested key the
returned column is the same whether the keys are requested in original
or in sorted order, (b) only the column order differs between the two
calls (for duplicate-free requests), and (c) the backed fetch returns
exactly what the plain in-memory selection returns; (d)-(e) state the
transposed analogue for `var_df` and observation keys. -/
theorem obs_var_df_backed_order_independence
    (st : AnnData) (hb : st.isbacked = true)
    (keys : List String) (layer gs : Option String) (uraw : Bool)
    (df1 df2 : PDF)
    (h1 : obs_df st keys [] layer gs uraw = .ok df1)
    (h2 : obs_df st (npUnique keys) [] layer gs uraw = .ok df2)
    (vkeys : List String) (vlayer : Option String) (dv1 dv2 : PDF)
    (hv1 : var_df st vkeys [] vlayer = .ok dv1)
    (hv2 : var_df st (npUnique vkeys) [] vlayer = .ok dv2) :
    (∀ k ∈ keys, findCol df1 k = findCol df2 k) ∧
    (keys.Nodup →
      List.Perm (df1.cols.map Prod.fst) (df2.cols.map Prod.fst)) ∧
    obs_df { st with isbacked := false } keys [] layer gs uraw = .ok df1 ∧
    (∀ k ∈ vkeys, findCol dv1 k = findCol dv2 k) ∧
    var_df { st with isbacked := false } vkeys [] vlayer = .ok dv1 := by
  obtain ⟨res1, vcols1, hr1, hnf1, hb1, happ1⟩ :=
    obs_df_ok_shape st keys [] layer gs uraw df1 h1
  obtain ⟨res2, vcols2, hr2, hnf2, hb2, happ2⟩ :=
    obs_df_ok_shape st (npUnique keys) [] layer gs uraw df2 h2
  rw [npUnique_idem] at hr2
  have hres : res1 = res2 := by
    injection hr1.symm.trans hr2
  subst hres
  have hvc : vcols1 = vcols2 := by
    injection hb1.symm.trans hb2
  subst hvc
  rw [applyBlocks_nil] at happ1 happ2
  have hdf1 : df1 = selectCols ⟨vcols1 ++ obsBlockCols st res1.obsSel⟩ keys := by
    injection happ1 with hx
    exact hx.symm
  have hdf2 : df2 = selectCols ⟨vcols1 ++ obsBlockCols st res1.obsSel⟩
      (npUnique keys) := by
    injection happ2 with hx
    exact hx.symm
  subst hdf1
  subst hdf2
  obtain ⟨ocols1, hob1, hvnf1, hvap1⟩ :=
    var_df_ok_shape st vkeys [] vlayer dv1 hv1
  obtain ⟨ocols2, hob2, hvnf2, hvap2⟩ :=
    var_df_ok_shape st (npUnique vkeys) [] vlayer dv2 hv2
  rw [npUnique_idem] at hob2 hvap2
  have hoc : ocols1 = ocols2 := by
    injection hob1.symm.trans hob2
  subst hoc
  rw [applyBlocks_nil] at hvap1 hvap2
  have hdv1 : dv1 = selectCols ⟨ocols1 ++ varColsBlock st
      (resolveVarLoop st (npUnique vkeys)).varSel⟩ vkeys := by
    injection hvap1 with hx
    exact hx.symm
  have hdv2 : dv2 = selectCols ⟨ocols1 ++ varColsBlock st
      (resolveVarLoop st (npUnique vkeys)).varSel⟩ (npUnique vkeys) := by
    injection hvap2 with hx
    exact hx.symm
  subst hdv1
  subst hdv2
  refine ⟨?_, ?_, ?_, ?_, ?_⟩
  · intro k hk
    rw [findCol_selectCols _ _ _ hk,
      findCol_selectCols _ _ _ (mem_npUnique.mpr hk)]
  · intro hnd
    have l1 : (selectCols ⟨vcols1 ++ obsBlockCols st res1.obsSel⟩
        keys).cols.map Prod.fst = keys := by
      simp only [selectCols, List.map_map]
      show keys.map (fun k => k) = keys
      simp
    have l2 : (selectCols ⟨vcols1 ++ obsBlockCols st res1.obsSel⟩
        (npUnique keys)).cols.map Prod.fst = npUnique keys := by
      simp only [selectCols, List.map_map]
      show (npUnique keys).map (fun k => k) = npUnique keys
      simp
    rw [l1, l2]
    exact (npUnique_perm_of_nodup hnd).symm
  · rw [obs_df_unback]
    exact h1
  · intro k hk
    rw [findCol_selectCols _ _ _ hk,
      findCol_selectCols _ _ _ (mem_npUnique.mpr hk)]
  · rw [var_df_unback]
    exact hv1

/-- A backed container whose feature names and observation names are
deliberately stored in non-sorted order. -/
def stC2 : AnnData where
  obsNames := ["o2", "o1"]
  varNames := ["b", "a"]
  obsCols := []
  obsData := fun _ _ => "x"
  varCols := []
  varData := fun _ _ => "s"
  X := fun i j => (i : Rat) * 10 + j
  layers := fun _ _ _ => 0
  raw := { varNames := ["b", "a"], varData := fun _ _ => "r", X := fun _ _ => 1 }
  obsm := fun _ => .arr fun _ _ => 0
  varm := fun _ => .arr fun _ _ => 0
  obsp := fun _ _ _ => 0
  isbacked := true

/-- The frames produced by the four witness calls for C2. -/
def dfC2a : PDF :=
  ((obs_df stC2 ["b", "a"] [] none none false).toOption).getD emptyPDF

def dfC2b : PDF :=
  ((obs_df stC2 (npUnique ["b", "a"]) [] none none false).toOption).getD
    emptyPDF

def dvC2a : PDF :=
  ((var_df stC2 ["o2", "o1"] [] none).toOption).getD emptyPDF

def dvC2b : PDF :=
  ((var_df stC2 (npUnique ["o2", "o1"]) [] none).toOption).getD emptyPDF

/-- Witness for C2: on a concrete backed container with unsorted names,
requesting ["b", "a"] and requesting the sorted ["a", "b"] yield the
same column for the key "b". -/
theorem obs_var_df_backed_order_independence_witness :
    findCol dfC2a "b" = findCol dfC2b "b" :=
  (obs_var_df_backed_order_independence stC2 rfl ["b", "a"] none none false
    dfC2a dfC2b rfl rfl ["o2", "o1"] none dvC2a dvC2b rfl rfl).1 "b"
    (by decide)

/-- The differential-expression result store `adata.uns[key]`: per-group
parallel arrays of length `nRanks` for the five fixed result columns,
plus the optional nonzero-fraction frames (`pts` / `pts_rest`), both
indexed by the same feature-name index. -/
structure RGGStore where
  nRanks : Nat
  names : String → Nat → String
  scores : String → Nat → Rat
  logfoldchanges : String → Nat → Rat
  pvals : String → Nat → Rat
  pvalsAdj : String → Nat → Rat
  hasPts : Bool
  hasPtsRest : Bool
  ptsIndex : List String
  pts : String → String → Rat
  ptsRest : String → String → Rat

/-- One output row of the reshaper.  The optional fields model columns
that are only present when the corresponding input is given. -/
structure RGGRow where
  names : String
  scores : Rat
  logfoldchanges : Rat
  pvals : Rat
  pvals_adj : Rat
  group : String
  symbol : Option String
  pct_nz_group : Option Rat
  pct_nz_reference : Option Rat
  deriving DecidableEq

/-- The long-format row for group `g`, original rank `i`. -/
def mkRow (s : RGGStore) (g : String) (i : Nat) : RGGRow :=
  ⟨s.names g i, s.scores g i, s.logfoldchanges g i, s.pvals g i,
    s.pvalsAdj g i, g, none, none, none⟩

/-- The sort relation of `d.sort_values(['group', 'level_0'])` with the
`group` column categorical in the requested order: compare the position
of the group in the requested list, then the original rank.  The key is
injective on the rows present (requested groups are distinct), so the
result does not depend on the sort algorithm. -/
def rggLe (groups : List String) (a b : Nat × String) : Prop :=
  groups.indexOf a.2 < groups.indexOf b.2 ∨
    (groups.indexOf a.2 = groups.indexOf b.2 ∧ a.1 ≤ b.1)

instance (groups : List String) : DecidableRel (rggLe groups) := fun _ _ => by
  unfold rggLe
  infer_instance

/-- Strict version of the sort key order. -/
def rggKeyLt (groups : List String) (a b : Nat × String) : Prop :=
  groups.indexOf a.2 < groups.indexOf b.2 ∨
    (groups.indexOf a.2 = groups.indexOf b.2 ∧ a.1 < b.1)

/-- Index pairs after `concat` + `stack(level=1)` + `reset_index`: one
row per (original rank, group).  The pre-sort order is irrelevant: the
subsequent sort by the injective (group position, rank) key fully
determines the output order. -/
def rggStacked (n : Nat) (groups : List String) : List (Nat × String) :=
  (List.range n).flatMap fun i => groups.map fun g => (i, g)

/-- The group-major, rank-minor order the sort produces. -/
def rggCanon (n : Nat) (groups : List String) : List (Nat × String) :=
  groups.flatMap fun g => (List.range n).map fun i => (i, g)

/-- An optional strict-inequality row filter
(`d = d[d[col] < cutoff]`-style). -/
def optFilterB (c : Option Rat) (test : RGGRow → Rat → Bool)
    (l : List RGGRow) : List RGGRow :=
  match c with
  | none => l
  | some cc => l.filter fun r => test r cc

/-- The optional `gene_symbols` join: a left join on the unique feature
index of `adata.var`, which adds one column and keeps every row. -/
def optMapSymbols (symbols : Option (String → String))
    (l : List RGGRow) : List RGGRow :=
  match symbols with
  | none => l
  | some f => l.map fun r => { r with symbol := some (f r.names) }

/-- An inner merge with a melted nonzero-fraction frame on
`(names, group)`: every output row whose feature name is absent from the
frame index is dropped; a duplicated index entry duplicates the row.
The `group` key always matches because the melt is restricted to the
requested groups. -/
def ptsMerge (idx : List String) (val : String → String → Rat)
    (setter : RGGRow → Rat → RGGRow) (l : List RGGRow) : List RGGRow :=
  l.flatMap fun r =>
    (idx.filter fun n => n == r.names).map fun _ => setter r (val r.group r.names)

/-- The row-level tail of the reshaper: the three optional filters, the
optional symbol join, and the two optional nonzero-fraction merges, in
source order. -/
def rggStages (s : RGGStore) (c1 c2 c3 : Option Rat)
    (symbols : Option (String → String)) (l : List RGGRow) : List RGGRow :=
  let d := optFilterB c1 (fun r c => decide (r.pvals_adj < c)) l
  let d := optFilterB c2 (fun r c => decide (c < r.logfoldchanges)) d
  let d := optFilterB c3 (fun r c => decide (r.logfoldchanges < c)) d
  let d := optMapSymbols symbols d
  let d := cond s.hasPts
    (ptsMerge s.ptsIndex s.pts (fun r v => { r with pct_nz_group := some v }) d) d
  cond s.hasPtsRest
    (ptsMerge s.ptsIndex s.ptsRest
      (fun r v => { r with pct_nz_reference := some v }) d) d

/-- Embedding of `rank_genes_groups_df` after group-argument
normalization (a single string becomes a one-element list; `None` means
every group): the wide-to-long stack, the categorical sort by (group,
original rank) which drops the rank column, then the optional filters
and joins.  The boolean is true when the `group` column is kept (two or
more groups; the single-group case drops it). -/
def rank_genes_groups_df (s : RGGStore) (groups : List String)
    (c1 c2 c3 : Option Rat) (symbols : Option (String → String)) :
    List RGGRow × Bool :=
  (rggStages s c1 c2 c3 symbols
    ((List.insertionSort (rggLe groups) (rggStacked s.nRanks groups)).map
      fun p => mkRow s p.2 p.1),
   groups.length != 1)

/-- The rows the reshaper produces for one (group, rank) cell. -/
def rggCell (s : RGGStore) (c1 c2 c3 : Option Rat)
    (symbols : Option (String → String)) (g : String) (i : Nat) :
    List RGGRow :=
  rggStages s c1 c2 c3 symbols [mkRow s g i]

theorem rggLe_total (groups : List String) :
    IsTotal (Nat × String) (rggLe groups) := by
  constructor
  intro a b
  rcases lt_trichotomy (groups.indexOf a.2) (groups.indexOf b.2) with h | h | h
  · exact Or.inl (Or.inl h)
  · rcases Nat.le_total a.1 b.1 with h' | h'
    · exact Or.inl (Or.inr ⟨h, h'⟩)
    · exact Or.inr (Or.inr ⟨h.symm, h'⟩)
  · exact Or.inr (Or.inl h)

theorem rggLe_trans (groups : List String) :
    IsTrans (Nat × String) (rggLe groups) := by
  constructor
  intro a b c hab hbc
  rcases hab with h1 | ⟨h1, h1'⟩ <;> rcases hbc with h2 | ⟨h2, h2'⟩
  · exact Or.inl (lt_trans h1 h2)
  · exact Or.inl (h2 ▸ h1)
  · exact Or.inl (h1 ▸ h2)
  · exact Or.inr ⟨h1.trans h2, le_trans h1' h2'⟩

/-- Transposing a rectangular product only permutes it. -/
theorem flatMap_map_swap_perm {α β γ : Type} (l1 : List α) (l2 : List β)
    (f : α → β → γ) :
    List.Perm (l1.flatMap fun a => l2.map fun b => f a b)
      (l2.flatMap fun b => l1.map fun a => f a b) := by
  induction l1 with
  | nil => simp
  | cons a t ih =>
    rw [List.flatMap_cons]
    simp only [List.map_cons]
    have step : List.Perm
        (l2.flatMap fun b => f a b :: t.map fun a' => f a' b)
        (l2.map (f a) ++ l2.flatMap fun b => t.map fun a' => f a' b) := by
      clear ih
      induction l2 with
      | nil => simp
      | cons b u ihu =>
        rw [List.flatMap_cons, List.flatMap_cons, List.map_cons]
        simp only [List.cons_append]
        refine List.Perm.cons _ ?_
        refine List.Perm.trans (List.Perm.append_left _ ihu) ?_
        exact List.perm_append_comm_assoc _ _ _
    refine List.Perm.trans ?_ step.symm
    exact List.Perm.append_left _ ih

theorem rggStacked_perm_canon (n : Nat) (groups : List String) :
    List.Perm (rggStacked n groups) (rggCanon n groups) :=
  flatMap_map_swap_perm (List.range n) groups fun i g => (i, g)

theorem mem_rggStacked {n : Nat} {groups : List String} {p : Nat × String}
    (h : p ∈ rggStacked n groups) : p.1 < n ∧ p.2 ∈ groups := by
  unfold rggStacked at h
  rw [List.mem_flatMap] at h
  obtain ⟨i, hi, hp⟩ := h
  rw [List.mem_map] at hp
  obtain ⟨g, hg, rfl⟩ := hp
  exact ⟨by simpa using hi, hg⟩

theorem rggStacked_nodup (n : Nat) (groups : List String)
    (hnd : groups.Nodup) : (rggStacked n groups).Nodup := by
  unfold rggStacked
  rw [List.nodup_flatMap]
  constructor
  · intro i _
    exact hnd.map fun g g' he => by
      injection he
  · rw [List.pairwise_iff_forall_sublist]
    intro i j hsub
    have hij : i ≠ j := by
      have := (List.pairwise_iff_forall_sublist.mp
        ((List.pairwise_lt_range n))) hsub
      omega
    intro p hp hq
    rw [List.mem_map] at hp hq
    obtain ⟨g, _, rfl⟩ := hp
    obtain ⟨g', _, he⟩ := hq
    injection he with h1 _
    exact hij h1.symm

theorem rggKeyLt_asymm (groups : List String) (a b : Nat × String)
    (h1 : rggKeyLt groups a b) (h2 : rggKeyLt groups b a) : False := by
  rcases h1 with h1 | ⟨h1, h1'⟩ <;> rcases h2 with h2 | ⟨h2, h2'⟩ <;> omega

/-- Two lists that are permutations of each other and strictly sorted by
an asymmetric relation coincide. -/
theorem eq_of_perm_of_pairwise_asymm {α : Type} {lt : α → α → Prop}
    (asym : ∀ a b, lt a b → lt b a → False) :
    ∀ (l1 l2 : List α), List.Perm l1 l2 → l1.Pairwise lt → l2.Pairwise lt →
      l1 = l2 := by
  intro l1
  induction l1 with
  | nil =>
    intro l2 hp _ _
    exact hp.nil_eq
  | cons a t ih =>
    intro l2 hp hs1 hs2
    cases l2 with
    | nil => exact absurd hp.symm.nil_eq (by simp)
    | cons b t2 =>
      have hab : a = b := by
        by_contra hne
        have hbmem : b ∈ a :: t := hp.mem_iff.mpr (by simp)
        have hamem : a ∈ b :: t2 := hp.mem_iff.mp (by simp)
        have hb_t : b ∈ t := by
          rcases List.mem_cons.mp hbmem with he | hr
          · exact absurd he.symm hne
          · exact hr
        have ha_t2 : a ∈ t2 := by
          rcases List.mem_cons.mp hamem with he | hr
          · exact absurd he hne
          · exact hr
        have h1 := (List.pairwise_cons.mp hs1).1 b hb_t
        have h2 := (List.pairwise_cons.mp hs2).1 a ha_t2
        exact asym a b h1 h2
      subst hab
      have hpt : List.Perm t t2 := hp.cons_inv
      rw [ih t2 hpt (List.pairwise_cons.mp hs1).2 (List.pairwise_cons.mp hs2).2]

theorem mem_rggCanon {n : Nat} {groups : List String} {p : Nat × String}
    (h : p ∈ rggCanon n groups) : p.1 < n ∧ p.2 ∈ groups := by
  unfold rggCanon at h
  rw [List.mem_flatMap] at h
  obtain ⟨g, hg, hp⟩ := h
  rw [List.mem_map] at hp
  obtain ⟨i, hi, rfl⟩ := hp
  exact ⟨by simpa using hi, hg⟩

/-- The group-major list is strictly sorted by the categorical sort
key. -/
theorem rggCanon_pairwise (n : Nat) :
    ∀ groups : List String, groups.Nodup →
      (rggCanon n groups).Pairwise (rggKeyLt groups) := by
  intro groups
  induction groups with
  | nil =>
    intro _
    simp [rggCanon]
  | cons g0 rest ih =>
    intro hnd
    have hg0 : g0 ∉ rest := (List.nodup_cons.mp hnd).1
    unfold rggCanon
    rw [List.flatMap_cons]
    rw [List.pairwise_append]
    refine ⟨?_, ?_, ?_⟩
    · rw [List.pairwise_map]
      refine (List.pairwise_lt_range n).imp ?_
      intro i j hij
      right
      exact ⟨rfl, hij⟩
    · have hbase := ih (List.nodup_cons.mp hnd).2
      unfold rggCanon at hbase
      refine hbase.imp_of_mem ?_
      intro a b ha hb hab
      have ha2 : a.2 ∈ rest := (mem_rggCanon (by
        unfold rggCanon
        exact ha)).2
      have hb2 : b.2 ∈ rest := (mem_rggCanon (by
        unfold rggCanon
        exact hb)).2
      have hia : (g0 :: rest).indexOf a.2 = (rest.indexOf a.2) + 1 :=
        List.indexOf_cons_ne rest fun he => hg0 (he ▸ ha2)
      have hib : (g0 :: rest).indexOf b.2 = (rest.indexOf b.2) + 1 :=
        List.indexOf_cons_ne rest fun he => hg0 (he ▸ hb2)
      rcases hab with h | ⟨h, h'⟩
      · left
        omega
      · right
        exact ⟨by omega, h'⟩
    · intro a ha b hb
      rw [List.mem_map] at ha
      obtain ⟨i, _, rfl⟩ := ha
      have hb2 : b.2 ∈ rest := (mem_rggCanon (show b ∈ rggCanon n rest by
        unfold rggCanon
        exact hb)).2
      left
      have hia : (g0 :: rest).indexOf g0 = 0 := List.indexOf_cons_self g0 rest
      have hib : (g0 :: rest).indexOf b.2 = (rest.indexOf b.2) + 1 :=
        List.indexOf_cons_ne rest fun he => hg0 (he ▸ hb2)
      simp only [hia, hib]
      omega

/-- The categorical sort of the stacked index pairs is exactly the
group-major, rank-minor enumeration. -/
theorem insertionSort_rggStacked (n : Nat) (groups : List String)
    (hnd : groups.Nodup) :
    List.insertionSort (rggLe groups) (rggStacked n groups) =
      rggCanon n groups := by
  have hperm : List.Perm
      (List.insertionSort (rggLe groups) (rggStacked n groups))
      (rggCanon n groups) :=
    (List.perm_insertionSort _ _).trans (rggStacked_perm_canon n groups)
  have hsorted : (List.insertionSort (rggLe groups)
      (rggStacked n groups)).Pairwise (rggLe groups) :=
    @List.sorted_insertionSort (Nat × String) _ _ (rggLe_total groups)
      (rggLe_trans groups) _
  have hnodup : (List.insertionSort (rggLe groups)
      (rggStacked n groups)).Nodup :=
    (List.perm_insertionSort _ _).nodup_iff.mpr (rggStacked_nodup n groups hnd)
  have hstrict : (List.insertionSort (rggLe groups)
      (rggStacked n groups)).Pairwise (rggKeyLt groups) := by
    refine (hsorted.and hnodup).imp_of_mem ?_
    intro a b ha hb hab
    have ha' : a ∈ rggStacked n groups :=
      (List.perm_insertionSort _ _).subset ha
    have hb' : b ∈ rggStacked n groups :=
      (List.perm_insertionSort _ _).subset hb
    have ha2 := (mem_rggStacked ha').2
    have hb2 := (mem_rggStacked hb').2
    rcases hab.1 with h | ⟨h, h'⟩
    · exact Or.inl h
    · rcases Nat.lt_or_ge a.1 b.1 with hlt | hge
      · exact Or.inr ⟨h, hlt⟩
      · exfalso
        have h2 : a.2 = b.2 := (List.indexOf_inj ha2 hb2).mp h
        have h1 : a.1 = b.1 := by omega
        exact hab.2 (Prod.ext h1 h2)
  exact eq_of_perm_of_pairwise_asymm (rggKeyLt_asymm groups) _ _ hperm
    hstrict (rggCanon_pairwise n groups hnd)

theorem optFilterB_flatMap (c : Option Rat) (test : RGGRow → Rat → Bool)
    {α : Type} (l : List α) (f : α → List RGGRow) :
    optFilterB c test (l.flatMap f) =
      l.flatMap fun a => optFilterB c test (f a) := by
  cases c
  · rfl
  · simp [optFilterB, List.filter_flatMap]

theorem optMapSymbols_flatMap (symbols : Option (String → String))
    {α : Type} (l : List α) (f : α → List RGGRow) :
    optMapSymbols symbols (l.flatMap f) =
      l.flatMap fun a => optMapSymbols symbols (f a) := by
  cases symbols
  · rfl
  · simp [optMapSymbols, List.map_flatMap]

theorem ptsMerge_flatMap (idx : List String) (val : String → String → Rat)
    (setter : RGGRow → Rat → RGGRow) {α : Type} (l : List α)
    (f : α → List RGGRow) :
    ptsMerge idx val setter (l.flatMap f) =
      l.flatMap fun a => ptsMerge idx val setter (f a) := by
  simp [ptsMerge, List.flatMap_assoc]

theorem cond_ptsMerge_flatMap (b : Bool) (idx : List String)
    (val : String → String → Rat) (setter : RGGRow → Rat → RGGRow)
    {α : Type} (l : List α) (f : α → List RGGRow) :
    cond b (ptsMerge idx val setter (l.flatMap f)) (l.flatMap f) =
      l.flatMap fun a => cond b (ptsMerge idx val setter (f a)) (f a) := by
  cases b
  · rfl
  · simp only [cond_true]
    exact ptsMerge_flatMap idx val setter l f

/-- The whole row-level tail distributes over a flat map: every stage
acts row by row (filters, per-row joins) or expands rows independently
(the inner merges). -/
theorem rggStages_flatMap (s : RGGStore) (c1 c2 c3 : Option Rat)
    (symbols : Option (String → String)) {α : Type} (l : List α)
    (f : α → List RGGRow) :
    rggStages s c1 c2 c3 symbols (l.flatMap f) =
      l.flatMap fun a => rggStages s c1 c2 c3 symbols (f a) := by
  simp only [rggStages]
  rw [optFilterB_flatMap c1, optFilterB_flatMap c2, optFilterB_flatMap c3,
    optMapSymbols_flatMap, cond_ptsMerge_flatMap, cond_ptsMerge_flatMap]

theorem map_eq_flatMap_singleton {α β : Type} (l : List α) (f : α → β) :
    l.map f = l.flatMap fun x => [f x] := by
  induction l <;> simp [*]

/-- C8: for every differential-expression store and every requested
(duplicate-free) group list, the reshaper output is the group-major,
rank-minor enumeration: all rows of the first requested group before all
rows of the second, and so on, each group internally ordered by the
original rank of the wide store — stated as equality with the canonical
nested enumeration of per-cell results. -/
theorem rank_genes_groups_df_ordering (s : RGGStore) (groups : List String)
    (hnd : groups.Nodup) (c1 c2 c3 : Option Rat)
    (symbols : Option (String → String)) :
    (rank_genes_groups_df s groups c1 c2 c3 symbols).1 =
      groups.flatMap fun g => (List.range s.nRanks).flatMap fun i =>
        rggCell s c1 c2 c3 symbols g i := by
  show rggStages s c1 c2 c3 symbols
      ((List.insertionSort (rggLe groups) (rggStacked s.nRanks groups)).map
        fun p => mkRow s p.2 p.1) = _
  rw [insertionSort_rggStacked s.nRanks groups hnd]
  unfold rggCanon
  rw [List.map_flatMap]
  simp only [List.map_map]
  rw [rggStages_flatMap]
  congr 1
  funext g
  rw [map_eq_flatMap_singleton, rggStages_flatMap]
  rfl

/-- A concrete store with two ranked features per group. -/
def rggW : RGGStore where
  nRanks := 2
  names := fun g _ => g
  scores := fun _ i => (i : Rat)
  logfoldchanges := fun _ _ => 1
  pvals := fun _ _ => 0
  pvalsAdj := fun _ _ => 0
  hasPts := false
  hasPtsRest := false
  ptsIndex := []
  pts := fun _ _ => 0
  ptsRest := fun _ _ => 0

/-- Witness for C8: groups ["B", "A"] produce all "B" rows before all
"A" rows, each block in rank order. -/
theorem rank_genes_groups_df_ordering_witness :
    (rank_genes_groups_df rggW ["B", "A"] none none none none).1 =
      ["B", "A"].flatMap fun g => (List.range rggW.nRanks).flatMap fun i =>
        rggCell rggW none none none none g i :=
  rank_genes_groups_df_ordering rggW ["B", "A"] (by decide) none none none
    none

end ScanpyGet
